import Mathlib

/-!
# Sentence game server: phase machine, submissions and scoring

A shallow embedding of `src/server.js`.  Every request handler of the server has the
shape `const data = loadData(); ...checks...; ...mutation...; saveData(data); res.json(...)`.
A handler is embedded as a function from the loaded document (and the session and the
parsed request fields) to the reply together with the document that is in the store once
the handler has finished: the argument of `saveData` when the handler reaches it, the
loaded document otherwise.

Conventions of the embedding:

* JSON numbers are represented by their exact rational value (every finite double is a
  rational, and `<`, `<=`, `===` on finite doubles agree with the order of the rationals).
  `NaN` has no JSON literal, so `express.json()` never produces it.
* Strings are sequences of Unicode scalar values; `===` on strings is equality.
* A request field that is absent (`undefined`) is `none`.
* An uncaught `TypeError` inside a handler is answered by Express with status 500 and
  happens before `saveData`, so the store keeps the loaded document.
* `String.prototype.toLowerCase` and `String.prototype.localeCompare` depend on the
  Unicode tables of the JavaScript engine; they are parameters (`Builtins`).
* `Math.random` is modelled by the index it selects: at loop index `i` the value
  `Math.floor(Math.random() * (i + 1))` is some `j` with `0 <= j <= i`.
-/

namespace SentenceGame

/-! ## JSON values -/

/-- Values produced by `JSON.parse`. An object is the list of its own properties in
enumeration order. -/
inductive Json where
  | null : Json
  | bool (b : Bool) : Json
  | num (q : ℚ) : Json
  | str (s : String) : Json
  | arr (xs : List Json) : Json
  | obj (kvs : List (String × Json)) : Json

/-- JavaScript truthiness (`!x` is the negation) of a request field. -/
def truthy : Option Json → Bool
  | none => false
  | some .null => false
  | some (.bool b) => b
  | some (.num q) => decide (q ≠ 0)
  | some (.str s) => decide (s ≠ "")
  | some (.arr _) => true
  | some (.obj _) => true

/-- Strict equality `a === b` between a stored JSON value and a freshly parsed one:
primitives compare by value, two distinct arrays or objects are never equal. -/
def strictEq : Json → Json → Bool
  | .null, .null => true
  | .bool a, .bool b => a == b
  | .num a, .num b => decide (a = b)
  | .str a, .str b => a == b
  | _, _ => false

/-! ## Data model (the document in `data.json`) -/

/-- The object pushed by `/api/register`; `password` is stored as received. -/
structure User where
  username : String
  displayName : String
  password : Json

/-- The object pushed by `/api/submit-sentence`. -/
structure SentenceEntry where
  username : String
  text : String
deriving DecidableEq, Repr

/-- A stored guess map: the values that pass the guard
`!guessMap || typeof guessMap !== 'object'` of `/api/submit-guesses`, namely objects and
arrays. -/
inductive GuessMap where
  | obj (kvs : List (String × Json)) : GuessMap
  | arr (xs : List Json) : GuessMap

/-- The object pushed by `/api/submit-guesses`. -/
structure GuessEntry where
  guesserUsername : String
  guessMap : GuessMap

/-- The document `{ phase, users, sentences, guesses }`. -/
structure GameState where
  phase : ℚ
  users : List User
  sentences : List SentenceEntry
  guesses : List GuessEntry

/-- The literal `{ phase: 1, users: [], sentences: [], guesses: [] }` of `loadData` and of
`/api/admin/reset`. -/
def defaults : GameState :=
  { phase := 1, users := [], sentences := [], guesses := [] }

/-- The cookie session: `req.session.username` and `req.session.isAdmin`. -/
structure Session where
  username : Option String
  isAdmin : Bool

/-- The reply of a handler: `res.json(payload)` or `res.status(code).json({ error })`. -/
inductive Reply (α : Type) where
  | ok (payload : α) : Reply α
  | error (status : Nat) (message : String) : Reply α

/-- Whether the reply is a success payload. -/
def Reply.isOk {α : Type} : Reply α → Bool
  | .ok _ => true
  | .error _ _ => false

/-- The engine functions whose tables are not part of the repository. -/
structure Builtins where
  toLowerCase : String → String
  localeCompare : String → String → Int

/-! ## String.prototype.trim -/

/-- The code points removed by `trim`: ECMAScript WhiteSpace and LineTerminator. -/
def isTrimChar (c : Char) : Bool :=
  let n := c.toNat
  n == 0x09 || n == 0x0A || n == 0x0B || n == 0x0C || n == 0x0D || n == 0x20 ||
  n == 0xA0 || n == 0x1680 || (0x2000 ≤ n && n ≤ 0x200A) || n == 0x2028 ||
  n == 0x2029 || n == 0x202F || n == 0x205F || n == 0x3000 || n == 0xFEFF

/-- Model of `s.trim()`. -/
def trim (s : String) : String :=
  ⟨((s.data.dropWhile isTrimChar).reverse.dropWhile isTrimChar).reverse⟩

/-! ## Shuffle -/

/-- The outcome of the random draws: at loop index `i` the selected index `j <= i`. -/
abbrev Draws := (i : Nat) → Fin (i + 1)

/-- The statement `[a[i], a[j]] = [a[j], a[i]]` for indices inside the array. -/
def swap {α : Type} (a : List α) (i j : Nat) : List α :=
  match a[i]?, a[j]? with
  | some x, some y => (a.set i y).set j x
  | _, _ => a

/-- The loop `for (let i = k; i > 0; i--)` of `shuffle`. -/
def shuffleLoop {α : Type} (draws : Draws) : Nat → List α → List α
  | 0, a => a
  | i + 1, a => shuffleLoop draws i (swap a (i + 1) (draws (i + 1)).val)

/-- Model of `shuffle(arr)`: copy, then the loop from `a.length - 1` down to `1`. -/
def shuffle {α : Type} (draws : Draws) (arr : List α) : List α :=
  shuffleLoop draws (arr.length - 1) arr

/-! ## Middleware -/

/-- The guard of `requireLogin`: `req.session.username` is truthy. -/
def loggedIn (sess : Session) : Option String :=
  match sess.username with
  | some u => if u ≠ "" then some u else none
  | none => none

/-! ## Array helpers -/

/-- Model of `arr.findIndex(p)`: the first index whose element satisfies `p`, else `-1`. -/
def findIndex {α : Type} (p : α → Bool) (arr : List α) : Int :=
  if arr.findIdx p < arr.length then (arr.findIdx p : Int) else -1

/-- Model of `arr.sort(cmp)`. ECMAScript requires the sort to be stable, so for a
comparator that is a consistent ordering the result is the one of any stable sort; the
model is the stable insertion sort, and `before a b` says `cmp(a, b) <= 0`. -/
def sortBy {α : Type} (before : α → α → Bool) (arr : List α) : List α :=
  arr.insertionSort (fun a b => before a b = true)

/-! ## Auth endpoints -/

/-- Model of `POST /api/register`. -/
def register (env : Builtins) (data : GameState)
    (username displayName password : Option Json) : Reply Unit × GameState :=
  if data.phase ≠ 1 then (.error 400 "Registration is closed", data)
  else if !truthy username || !truthy displayName || !truthy password then
    (.error 400 "All fields are required", data)
  else match username, password with
    | some (.str un), some pw =>
      let usernameLower := env.toLowerCase (trim un)
      if (data.users.find? (fun u => u.username == usernameLower)).isSome then
        (.error 400 "Username already taken", data)
      else match displayName with
        | some (.str dn) =>
          (.ok (), { data with users := data.users ++
              [{ username := usernameLower, displayName := trim dn, password := pw }] })
        | _ => (.error 500 "TypeError: displayName.trim is not a function", data)
    | _, _ => (.error 500 "TypeError: username.trim is not a function", data)

/-- Model of `POST /api/login`; the payload is the `displayName`. -/
def login (env : Builtins) (data : GameState) (username password : Option Json) :
    Reply String × GameState :=
  if !truthy username || !truthy password then
    (.error 400 "Username and password required", data)
  else match username, password with
    | some (.str un), some pw =>
      match data.users.find? (fun u => u.username == env.toLowerCase (trim un)) with
      | some user =>
        if !strictEq user.password pw then (.error 401 "Invalid username or password", data)
        else (.ok user.displayName, data)
      | none => (.error 401 "Invalid username or password", data)
    | _, _ =>
      -- `username.trim()` is evaluated inside the callback of `find`, once per stored user
      if data.users.isEmpty then (.error 401 "Invalid username or password", data)
      else (.error 500 "TypeError: username.trim is not a function", data)

/-! ## Student game endpoints -/

/-- Model of `POST /api/submit-sentence`. -/
def submitSentence (data : GameState) (sess : Session) (text : Option Json) :
    Reply Unit × GameState :=
  match loggedIn sess with
  | none => (.error 401 "Not logged in", data)
  | some u =>
    if data.phase ≠ 2 then (.error 400 "Sentence submission is not open", data)
    else if !truthy text then (.error 400 "Sentence cannot be empty", data)
    else match text with
      | some (.str t) =>
        if trim t = "" then (.error 400 "Sentence cannot be empty", data)
        else
          let existing := findIndex (fun s => s.username == u) data.sentences
          if existing ≥ 0 then
            match data.sentences[existing.toNat]? with
            | some s =>
              (.ok (), { data with
                sentences := data.sentences.set existing.toNat { s with text := trim t } })
            | none => (.error 500 "TypeError", data)
          else
            (.ok (), { data with
              sentences := data.sentences ++ [{ username := u, text := trim t }] })
      | _ => (.error 500 "TypeError: text.trim is not a function", data)

/-- One element of the `students` array of `/api/sentences`. -/
structure Student where
  username : String
  displayName : String
deriving DecidableEq, Repr

/-- The expression `user ? user.displayName : s.username` after
`data.users.find(u => u.username === s.username)`. -/
def displayNameOf (users : List User) (username : String) : String :=
  match users.find? (fun u => u.username == username) with
  | some user => user.displayName
  | none => username

/-- The payload `{ sentences, students }` of `/api/sentences`. -/
structure SentencesPayload where
  sentences : List String
  students : List Student

/-- Model of `GET /api/sentences`. -/
def sentencesListing (env : Builtins) (data : GameState) (sess : Session) :
    Reply SentencesPayload × GameState :=
  match loggedIn sess with
  | none => (.error 401 "Not logged in", data)
  | some _ =>
    if data.phase < 3 then (.error 400 "Guessing phase has not started", data)
    else
      let sentences := data.sentences.map (fun s => s.text)
      let students := sortBy
        (fun a b => decide (env.localeCompare a.displayName b.displayName ≤ 0))
        (data.sentences.map (fun s =>
          { username := s.username, displayName := displayNameOf data.users s.username }))
      (.ok { sentences := sentences, students := students }, data)

/-- Model of `POST /api/submit-guesses`. -/
def submitGuesses (data : GameState) (sess : Session) (guessMap : Option Json) :
    Reply Unit × GameState :=
  match loggedIn sess with
  | none => (.error 401 "Not logged in", data)
  | some u =>
    if data.phase ≠ 3 then (.error 400 "Guessing phase is not open", data)
    else
      let store (m : GuessMap) : Reply Unit × GameState :=
        let existing := findIndex (fun g => g.guesserUsername == u) data.guesses
        if existing ≥ 0 then
          match data.guesses[existing.toNat]? with
          | some g =>
            (.ok (), { data with
              guesses := data.guesses.set existing.toNat { g with guessMap := m } })
          | none => (.error 500 "TypeError", data)
        else
          (.ok (), { data with
            guesses := data.guesses ++ [{ guesserUsername := u, guessMap := m }] })
      match guessMap with
      | some (.obj kvs) => store (.obj kvs)
      | some (.arr xs) => store (.arr xs)
      | _ => (.error 400 "Invalid guesses", data)

/-! ## Results -/

/-- The assignment `answerKey[k] = v` on an object created by the literal `{}`. The
assignment to the key `__proto__` runs the setter inherited from `Object.prototype`,
which ignores a string value and creates no own property. -/
def answerKeySet (answerKey : List (String × String)) (k v : String) :
    List (String × String) :=
  if k = "__proto__" then answerKey
  else if answerKey.any (fun kv => kv.1 == k) then
    answerKey.map (fun kv => if kv.1 == k then (k, v) else kv)
  else answerKey ++ [(k, v)]

/-- The loop `for (const s of data.sentences) answerKey[s.username] = s.text`; the result
lists the own properties of `answerKey`. -/
def buildAnswerKey (sentences : List SentenceEntry) : List (String × String) :=
  sentences.foldl (fun answerKey s => answerKeySet answerKey s.username s.text) []

/-- The test `answerKey[k] === v` for a guessed value `v` that came out of `JSON.parse`.
An own property holds a string; a key that is not an own property evaluates to
`undefined` or to a member of `Object.prototype` (a function or an object), which is not
strictly equal to any parsed JSON value. -/
def answerKeyMatches (answerKey : List (String × String)) (k : String) (v : Json) : Bool :=
  match answerKey.lookup k with
  | some text => strictEq (.str text) v
  | none => false

/-- Model of `Object.entries(guessMap)`: the properties of an object, the elements of an
array under their decimal indices. -/
def objectEntries : GuessMap → List (String × Json)
  | .obj kvs => kvs
  | .arr xs => xs.enum.map (fun ix => (toString ix.1, ix.2))

/-- The inner loop of `/api/results` over `Object.entries(guessEntry.guessMap)`. -/
def scoreEntries (answerKey : List (String × String)) (username : String)
    (entries : List (String × Json)) : Nat :=
  entries.foldl (fun score kv =>
    if kv.1 == username then score
    else if answerKeyMatches answerKey kv.1 kv.2 then score + 1
    else score) 0

/-- One row `{ username, displayName, score }` of the scoreboard. -/
structure ScoreRow where
  username : String
  displayName : String
  score : Nat
deriving DecidableEq, Repr

/-- The body of `for (const user of data.users)`: the row pushed for one user. -/
def scoreRow (data : GameState) (answerKey : List (String × String)) (user : User) :
    ScoreRow :=
  let score :=
    match data.guesses.find? (fun g => g.guesserUsername == user.username) with
    | some guessEntry => scoreEntries answerKey user.username (objectEntries guessEntry.guessMap)
    | none => 0
  { username := user.username, displayName := user.displayName, score := score }

/-- One row `{ displayName, sentence }` of the displayed answer key. -/
structure AnswerRow where
  displayName : String
  sentence : String
deriving DecidableEq, Repr

/-- The payload `{ scoreboard, totalPossible, myScore, answerKey }` of `/api/results`. -/
structure ResultsPayload where
  scoreboard : List ScoreRow
  totalPossible : Int
  myScore : Nat
  answerKey : List AnswerRow

/-- Model of `GET /api/results`. -/
def results (data : GameState) (sess : Session) : Reply ResultsPayload × GameState :=
  match loggedIn sess with
  | none => (.error 401 "Not logged in", data)
  | some me =>
    if data.phase < 4 then (.error 400 "Results are not available yet", data)
    else
      let answerKey := buildAnswerKey data.sentences
      let totalStudents := data.sentences.length
      let scoreboard := sortBy (fun a b => decide ((b.score : Int) - (a.score : Int) ≤ 0))
        (data.users.map (scoreRow data answerKey))
      let answerKeyDisplay := data.sentences.map (fun s =>
        { displayName := displayNameOf data.users s.username, sentence := s.text })
      let myScore :=
        match scoreboard.find? (fun s => s.username == me) with
        | some myEntry => myEntry.score
        | none => 0
      (.ok { scoreboard := scoreboard, totalPossible := (totalStudents : Int) - 1,
             myScore := myScore, answerKey := answerKeyDisplay }, data)

/-! ## Admin endpoints -/

/-- Model of `POST /api/admin/set-phase`. -/
def setPhase (draws : Draws) (data : GameState) (sess : Session) (phase : Option Json) :
    Reply ℚ × GameState :=
  if !sess.isAdmin then (.error 403 "Not authorized", data)
  else match phase with
    | some (.num p) =>
      if p < 1 ∨ p > 4 then (.error 400 "Phase must be 1-4", data)
      else if p ≤ data.phase then (.error 400 "Can only advance to a later phase", data)
      else
        let sentences :=
          if p ≥ 3 ∧ data.phase < 3 then shuffle draws data.sentences else data.sentences
        (.ok p, { data with sentences := sentences, phase := p })
    | _ => (.error 400 "Phase must be 1-4", data)

/-- Model of `POST /api/admin/reset`. -/
def reset (data : GameState) (sess : Session) : Reply Unit × GameState :=
  if !sess.isAdmin then (.error 403 "Not authorized", data)
  else (.ok (), defaults)

/-! ## The server as a transition system -/

/-- A request to one of the endpoints that load the game document, with its parsed
body fields; `setPhase` also carries the outcome of the random draws of `shuffle`. -/
inductive Op where
  | register (username displayName password : Option Json) : Op
  | login (username password : Option Json) : Op
  | submitSentence (text : Option Json) : Op
  | sentences : Op
  | submitGuesses (guessMap : Option Json) : Op
  | results : Op
  | setPhase (phase : Option Json) (draws : Draws) : Op
  | reset : Op

/-- Whether the request is `POST /api/admin/reset`. -/
def Op.isReset : Op → Bool
  | .reset => true
  | _ => false

/-- Whether the request is `POST /api/admin/set-phase`. -/
def Op.isSetPhase : Op → Bool
  | .setPhase _ _ => true
  | _ => false

/-- One request: whether it was answered with a success payload, and the stored document
afterwards. -/
def step (env : Builtins) (data : GameState) (sess : Session) : Op → Bool × GameState
  | .register username displayName password =>
    let r := register env data username displayName password
    (r.1.isOk, r.2)
  | .login username password =>
    let r := login env data username password
    (r.1.isOk, r.2)
  | .submitSentence text =>
    let r := submitSentence data sess text
    (r.1.isOk, r.2)
  | .sentences =>
    let r := sentencesListing env data sess
    (r.1.isOk, r.2)
  | .submitGuesses guessMap =>
    let r := submitGuesses data sess guessMap
    (r.1.isOk, r.2)
  | .results =>
    let r := results data sess
    (r.1.isOk, r.2)
  | .setPhase phase draws =>
    let r := setPhase draws data sess phase
    (r.1.isOk, r.2)
  | .reset =>
    let r := reset data sess
    (r.1.isOk, r.2)

/-- The documents the server can hold, starting from the default document. -/
inductive Reachable (env : Builtins) : GameState → Prop where
  | init : Reachable env defaults
  | step {data : GameState} (h : Reachable env data) (sess : Session) (op : Op) :
      Reachable env (step env data sess op).2

/-- Lexicographic comparison of two strings by code points: negative, zero or positive. -/
def compareCodePoints : List Char → List Char → Int
  | [], [] => 0
  | [], _ :: _ => -1
  | _ :: _, [] => 1
  | a :: as, b :: bs =>
    if a.toNat < b.toNat then -1
    else if b.toNat < a.toNat then 1
    else compareCodePoints as bs

/-- A concrete engine for evaluating examples: lower-casing of the ASCII letters and
comparison by code points. -/
def asciiBuiltins : Builtins :=
  { toLowerCase := fun s => ⟨s.data.map Char.toLower⟩
    localeCompare := fun a b => compareCodePoints a.data b.data }

/-- The admin session. -/
def adminSession : Session := { username := none, isAdmin := true }

/-- The session of the student `u`. -/
def studentSession (u : String) : Session := { username := some u, isAdmin := false }

/-- The draws that always select index `0`. -/
def zeroDraws : Draws := fun _ => 0

/-! ## Sessions -/

/-- The constant `ADMIN_PASSWORD`. -/
def ADMIN_PASSWORD : String := "teacher123"

/-- The session cookie after a request to an endpoint: a successful register executes
`req.session.username = usernameLower`, a successful login executes
`req.session.username = user.username`; no other endpoint of `Op` writes the session. -/
def sessionAfter (env : Builtins) (data : GameState) (sess : Session) : Op → Session
  | .register username displayName password =>
    if (register env data username displayName password).1.isOk then
      match username with
      | some (.str un) => { sess with username := some (env.toLowerCase (trim un)) }
      | _ => sess
    else sess
  | .login username password =>
    if (login env data username password).1.isOk then
      match username with
      | some (.str un) =>
        match data.users.find? (fun u => u.username == env.toLowerCase (trim un)) with
        | some user => { sess with username := some user.username }
        | none => sess
      | _ => sess
    else sess
  | _ => sess

/-- A request of a browser: an endpoint of `Op`, `POST /api/admin-login` or
`POST /api/logout`. -/
inductive Request where
  | api (op : Op) : Request
  | adminLogin (password : Option Json) : Request
  | logout : Request

/-- The stored document together with the session cookie of every browser. -/
structure World where
  data : GameState
  sessions : Nat → Session

/-- The server after start-up: the default document, and no browser has a session. -/
def World.initial : World :=
  { data := defaults, sessions := fun _ => { username := none, isAdmin := false } }

/-- The request `req` sent by browser `c`. The cookie is signed and held by the browser;
no handler reads or writes the cookie of another browser, and reset only calls
`saveData(defaults)`. -/
def serve (env : Builtins) (w : World) (c : Nat) : Request → World
  | .api op =>
    { data := (step env w.data (w.sessions c) op).2
      sessions := fun b =>
        if b = c then sessionAfter env w.data (w.sessions c) op else w.sessions b }
  | .adminLogin password =>
    match password with
    | some (.str pw) =>
      if pw = ADMIN_PASSWORD then
        { w with sessions := fun b =>
            if b = c then { w.sessions c with isAdmin := true } else w.sessions b }
      else w
    | _ => w
  | .logout =>
    { w with sessions := fun b =>
        if b = c then { username := none, isAdmin := false } else w.sessions b }

/-- The worlds the server can be in. -/
inductive Served (env : Builtins) : World → Prop where
  | init : Served env World.initial
  | serve {w : World} (h : Served env w) (c : Nat) (req : Request) :
      Served env (serve env w c req)

/-- The requests of the stale-session scenario: browser 0 registers `alice`; browser 1 logs
in as admin, resets the game and opens phase 2; browser 0 submits a sentence. -/
def staleSessionWorld : World :=
  serve asciiBuiltins
    (serve asciiBuiltins
      (serve asciiBuiltins
        (serve asciiBuiltins
          (serve asciiBuiltins World.initial 0
            (.api (.register (some (.str "alice")) (some (.str "Alice")) (some (.str "pw")))))
          1 (.adminLogin (some (.str "teacher123"))))
        1 (.api .reset))
      1 (.api (.setPhase (some (.num 2)) zeroDraws)))
    0 (.api (.submitSentence (some (.str "hello"))))

/-! ## Choice sequences of the shuffle -/

/-- A choice sequence for an array of length `n`: for every index `i < n` an index
`j <= i`. The loop visits the indices `n - 1` down to `1`; index `0` has the single
choice `0`. -/
abbrev Choices (n : Nat) := (i : Fin n) → Fin (i.val + 1)

/-- The random draws that follow a choice sequence. -/
def Choices.toDraws {n : Nat} (c : Choices n) : Draws :=
  fun i => if h : i < n then c ⟨i, h⟩ else 0

/-! ## Proof devices -/

/-- Proof device: the array left by the pattern `findIndex`, then assign at the found index
or `push`, which both submit handlers use, when the element written at the found index and
the element pushed are the same value `entry`. -/
def upsert {α : Type} (p : α → Bool) (entry : α) (l : List α) : List α :=
  if l.findIdx p < l.length then l.set (l.findIdx p) entry else l ++ [entry]

/-- The test `s.username === u` of `/api/submit-sentence`. -/
def ownsSentence (u : String) (s : SentenceEntry) : Bool := s.username == u

/-- The test `g.guesserUsername === u` of `/api/submit-guesses`. -/
def ownsGuess (u : String) (g : GuessEntry) : Bool := g.guesserUsername == u

/-! ## Frame lemmas: what each handler leaves alone -/

theorem register_frame (env : Builtins) (data : GameState)
    (username displayName password : Option Json) :
    (register env data username displayName password).2.phase = data.phase ∧
    (register env data username displayName password).2.sentences = data.sentences ∧
    (register env data username displayName password).2.guesses = data.guesses := by
  unfold register
  split_ifs <;> try exact ⟨rfl, rfl, rfl⟩
  split
  · dsimp only
    split_ifs <;> try exact ⟨rfl, rfl, rfl⟩
    split <;> exact ⟨rfl, rfl, rfl⟩
  · exact ⟨rfl, rfl, rfl⟩

theorem login_state (env : Builtins) (data : GameState) (username password : Option Json) :
    (login env data username password).2 = data := by
  unfold login
  by_cases h : (!truthy username || !truthy password) = true
  · rw [if_pos h]
  · rw [if_neg h]
    split
    · split
      · split_ifs <;> rfl
      · rfl
    · split_ifs <;> rfl

theorem sentencesListing_state (env : Builtins) (data : GameState) (sess : Session) :
    (sentencesListing env data sess).2 = data := by
  unfold sentencesListing
  split
  · rfl
  · split_ifs <;> rfl

theorem results_state (data : GameState) (sess : Session) :
    (results data sess).2 = data := by
  unfold results
  split
  · rfl
  · split_ifs <;> rfl

theorem submitSentence_frame (data : GameState) (sess : Session) (text : Option Json) :
    (submitSentence data sess text).2.phase = data.phase ∧
    (submitSentence data sess text).2.users = data.users ∧
    (submitSentence data sess text).2.guesses = data.guesses := by
  unfold submitSentence
  split
  · exact ⟨rfl, rfl, rfl⟩
  · split_ifs <;> try exact ⟨rfl, rfl, rfl⟩
    split
    · dsimp only
      split_ifs <;> try exact ⟨rfl, rfl, rfl⟩
      split <;> exact ⟨rfl, rfl, rfl⟩
    · exact ⟨rfl, rfl, rfl⟩

theorem submitSentence_closed (data : GameState) (sess : Session) (text : Option Json)
    (h : data.phase ≠ 2) :
    (submitSentence data sess text).1.isOk = false ∧ (submitSentence data sess text).2 = data := by
  unfold submitSentence
  split
  · exact ⟨rfl, rfl⟩
  · simp [h, Reply.isOk]

theorem submitGuesses_frame (data : GameState) (sess : Session) (guessMap : Option Json) :
    (submitGuesses data sess guessMap).2.phase = data.phase ∧
    (submitGuesses data sess guessMap).2.users = data.users ∧
    (submitGuesses data sess guessMap).2.sentences = data.sentences := by
  unfold submitGuesses
  split
  · exact ⟨rfl, rfl, rfl⟩
  · split_ifs <;> try exact ⟨rfl, rfl, rfl⟩
    dsimp only
    split
    · split_ifs <;> try exact ⟨rfl, rfl, rfl⟩
      split <;> exact ⟨rfl, rfl, rfl⟩
    · split_ifs <;> try exact ⟨rfl, rfl, rfl⟩
      split <;> exact ⟨rfl, rfl, rfl⟩
    · exact ⟨rfl, rfl, rfl⟩

theorem setPhase_users_guesses (draws : Draws) (data : GameState) (sess : Session)
    (phase : Option Json) :
    (setPhase draws data sess phase).2.users = data.users ∧
    (setPhase draws data sess phase).2.guesses = data.guesses := by
  unfold setPhase
  split_ifs <;> try exact ⟨rfl, rfl⟩
  split
  · split_ifs <;> exact ⟨rfl, rfl⟩
  · exact ⟨rfl, rfl⟩

/-- The possible outcomes of set-phase: an error that keeps the document, or a numeric
target `p` inside `[1, 4]` and above the stored phase, stored together with the sentence
list, which is shuffled when the transition crosses into phase 3 or more. -/
theorem setPhase_cases (draws : Draws) (data : GameState) (sess : Session)
    (phase : Option Json) :
    ((setPhase draws data sess phase).1.isOk = false ∧
        (setPhase draws data sess phase).2 = data) ∨
    (∃ p : ℚ, phase = some (.num p) ∧ sess.isAdmin = true ∧ 1 ≤ p ∧ p ≤ 4 ∧ data.phase < p ∧
        (setPhase draws data sess phase).1 = .ok p ∧
        (setPhase draws data sess phase).2 =
          { data with
            sentences :=
              if p ≥ 3 ∧ data.phase < 3 then shuffle draws data.sentences else data.sentences
            phase := p }) := by
  unfold setPhase
  by_cases ha : sess.isAdmin = true
  · simp only [ha, Bool.not_true, Bool.false_eq_true, if_false]
    split
    · rename_i p
      by_cases hr : p < 1 ∨ p > 4
      · left; simp [hr, Reply.isOk]
      · by_cases ho : p ≤ data.phase
        · left; simp [hr, ho, Reply.isOk]
        · right
          refine ⟨p, rfl, trivial, ?_, ?_, ?_, ?_⟩
          · exact not_lt.mp (fun h => hr (Or.inl h))
          · exact not_lt.mp (fun h => hr (Or.inr h))
          · exact not_le.mp ho
          · simp only [hr, ho, if_false]
            exact ⟨trivial, trivial⟩
    · left; exact ⟨rfl, rfl⟩
  · left
    simp only [Bool.not_eq_true] at ha
    simp [ha, Reply.isOk]

/-! ## Shuffle is a rearrangement -/

theorem set_getElem_same {α : Type} (l : List α) (i : Nat) (h : i < l.length) :
    l.set i l[i] = l := by
  apply List.ext_getElem (by simp)
  intro n h1 h2
  by_cases hn : i = n
  · subst hn; simp
  · simp [List.getElem_set_ne hn]

theorem swap_perm {α : Type} [DecidableEq α] (a : List α) (i j : Nat) :
    (swap a i j).Perm a := by
  unfold swap
  split
  · rename_i x y hx hy
    obtain ⟨hi, hxi⟩ := List.getElem?_eq_some_iff.mp hx
    obtain ⟨hj, hyj⟩ := List.getElem?_eq_some_iff.mp hy
    rw [List.perm_iff_count]
    intro b
    by_cases hij : i = j
    · subst hij
      have hxy : x = y := by rw [← hxi, ← hyj]
      subst hxy
      rw [List.set_set, ← hxi, set_getElem_same a i hi]
    · have hj2 : j < (a.set i y).length := by simpa using hj
      have hget : (a.set i y)[j] = y := by
        rw [List.getElem_set_ne hij]; exact hyj
      rw [List.count_set _ _ _ _ hj2, List.count_set _ _ _ _ hi, hget, hxi]
      have hle : (if (x == b) = true then 1 else 0) ≤ a.count b := by
        split_ifs with hxb
        · have hb : x = b := by simpa using hxb
          subst hb
          exact List.count_pos_iff.mpr (hxi ▸ List.getElem_mem hi)
        · exact Nat.zero_le _
      omega
  · exact List.Perm.refl a

theorem shuffleLoop_perm {α : Type} [DecidableEq α] (draws : Draws) (k : Nat) (a : List α) :
    (shuffleLoop draws k a).Perm a := by
  induction k generalizing a with
  | zero => exact List.Perm.refl a
  | succ i ih => exact (ih _).trans (swap_perm a (i + 1) _)

theorem shuffle_perm {α : Type} [DecidableEq α] (draws : Draws) (arr : List α) :
    (shuffle draws arr).Perm arr :=
  shuffleLoop_perm draws _ arr

/-! ## Submissions -/

theorem trim_empty : trim "" = "" := rfl

theorem trim_eq_empty_iff (t : String) :
    trim t = "" ↔ ∀ c ∈ t.data, isTrimChar c = true := by
  unfold trim
  constructor
  · intro h
    have h1 : ((t.data.dropWhile isTrimChar).reverse.dropWhile isTrimChar).reverse = [] := by
      have := congrArg String.data h
      simpa using this
    have h2 : ∀ c ∈ (t.data.dropWhile isTrimChar).reverse, isTrimChar c = true :=
      List.dropWhile_eq_nil_iff.mp (List.reverse_eq_nil_iff.mp h1)
    cases hd : t.data.dropWhile isTrimChar with
    | nil => exact List.dropWhile_eq_nil_iff.mp hd
    | cons x rest =>
      have hx : isTrimChar x = true := h2 x (by rw [hd]; simp)
      have hnx := List.head_dropWhile_not isTrimChar t.data (by rw [hd]; simp)
      simp only [hd, List.head_cons] at hnx
      rw [hx] at hnx
      exact absurd hnx (by simp)
  · intro h
    have h1 : t.data.dropWhile isTrimChar = [] := List.dropWhile_eq_nil_iff.mpr h
    rw [h1]
    rfl

theorem findIndex_found {α : Type} (p : α → Bool) (l : List α)
    (h : l.findIdx p < l.length) : findIndex p l = (l.findIdx p : Int) := by
  simp [findIndex, h]

theorem findIndex_missing {α : Type} (p : α → Bool) (l : List α)
    (h : ¬ l.findIdx p < l.length) : findIndex p l = -1 := by
  simp [findIndex, h]

/-- The effect of an accepted sentence submission. -/
theorem submitSentence_ok (data : GameState) (sess : Session) (u t : String)
    (hu : loggedIn sess = some u) (hp : data.phase = 2) (ht : trim t ≠ "") :
    submitSentence data sess (some (.str t)) =
      (.ok (), { data with
        sentences := upsert (ownsSentence u) ⟨u, trim t⟩ data.sentences }) := by
  have hne : t ≠ "" := fun h => ht (by rw [h]; exact trim_empty)
  unfold submitSentence
  rw [hu]
  simp only [hp, ne_eq, not_true_eq_false, if_false, truthy, hne, decide_True, decide_not,
    Bool.not_true, Bool.false_eq_true, ht, not_false_eq_true, Bool.not_false]
  have hfun : (fun s : SentenceEntry => s.username == u) = ownsSentence u := rfl
  rw [hfun]
  by_cases hf : data.sentences.findIdx (ownsSentence u) < data.sentences.length
  · have hidx := findIndex_found (ownsSentence u) data.sentences hf
    have hown : ownsSentence u (data.sentences[data.sentences.findIdx (ownsSentence u)]) = true :=
      List.findIdx_getElem
    have hname : (data.sentences[data.sentences.findIdx (ownsSentence u)]).username = u := by
      simpa [ownsSentence] using hown
    rw [hidx]
    simp only [ge_iff_le, Int.natCast_nonneg, if_true, Int.toNat_ofNat, upsert, hf,
      List.getElem?_eq_getElem hf, hname]
  · have hidx := findIndex_missing (ownsSentence u) data.sentences hf
    rw [hidx]
    simp [upsert, hf]

/-! ### The replace-or-append pattern -/

theorem upsert_found {α : Type} (p : α → Bool) (e : α) (l : List α)
    (h : ∃ x ∈ l, p x = true) :
    ∃ i, ∃ hi : i < l.length, p l[i] = true ∧
      (∀ j, ∀ hj : j < l.length, j < i → p l[j] = false) ∧ upsert p e l = l.set i e := by
  have hf : l.findIdx p < l.length := List.findIdx_lt_length_of_exists h
  refine ⟨l.findIdx p, hf, List.findIdx_getElem, ?_, by simp [upsert, hf]⟩
  intro j _ hj
  simpa using List.not_of_lt_findIdx hj

theorem upsert_missing {α : Type} (p : α → Bool) (e : α) (l : List α)
    (h : ∀ x ∈ l, p x = false) : upsert p e l = l ++ [e] := by
  have hf : l.findIdx p = l.length := List.findIdx_eq_length_of_false h
  simp [upsert, hf]

theorem findIdx_upsert {α : Type} (p : α → Bool) (e : α) (l : List α) (he : p e = true) :
    (upsert p e l).findIdx p = l.findIdx p ∧ l.findIdx p < (upsert p e l).length ∧
      (upsert p e l)[l.findIdx p]? = some e := by
  by_cases hf : l.findIdx p < l.length
  · have hlen : l.findIdx p < (l.set (l.findIdx p) e).length := by simpa using hf
    have hidx : (l.set (l.findIdx p) e).findIdx p = l.findIdx p := by
      rw [List.findIdx_eq hlen]
      refine ⟨by simpa using he, ?_⟩
      intro j hj
      have hne : l.findIdx p ≠ j := Nat.ne_of_gt hj
      rw [List.getElem_set_ne hne]
      simpa using List.not_of_lt_findIdx hj
    simp only [upsert, hf, if_true]
    exact ⟨hidx, hlen, by simp [hf]⟩
  · have hlen : l.findIdx p = l.length :=
      Nat.le_antisymm (List.findIdx_le_length p) (Nat.le_of_not_lt hf)
    simp only [upsert, hf, if_false]
    refine ⟨?_, by simp [hlen], by simp [hlen]⟩
    rw [List.findIdx_append]
    simp [hf, hlen, List.findIdx_cons, he]

theorem upsert_upsert {α : Type} (p : α → Bool) (e₁ e₂ : α) (l : List α)
    (he : p e₁ = true) : upsert p e₂ (upsert p e₁ l) = upsert p e₂ l := by
  obtain ⟨hidx, hlt, _⟩ := findIdx_upsert p e₁ l he
  have hstep : upsert p e₂ (upsert p e₁ l) = (upsert p e₁ l).set (l.findIdx p) e₂ := by
    have hgen : ∀ m : List α, upsert p e₂ m =
        if m.findIdx p < m.length then m.set (m.findIdx p) e₂ else m ++ [e₂] := fun _ => rfl
    rw [hgen (upsert p e₁ l), hidx, if_pos hlt]
  rw [hstep]
  by_cases hf : l.findIdx p < l.length
  · simp [upsert, hf, List.set_set]
  · have hlen : l.findIdx p = l.length :=
      Nat.le_antisymm (List.findIdx_le_length p) (Nat.le_of_not_lt hf)
    simp [upsert, hf, hlen]

theorem upsert_keys_nodup {α κ : Type} (key : α → κ) (k : κ) (p : α → Bool) (e : α)
    (l : List α) (hp : ∀ x, p x = true ↔ key x = k) (he : key e = k)
    (hnd : (l.map key).Nodup) : ((upsert p e l).map key).Nodup := by
  by_cases hf : l.findIdx p < l.length
  · have hk : key l[l.findIdx p] = k := (hp _).mp List.findIdx_getElem
    have hmap : (l.set (l.findIdx p) e).map key = l.map key := by
      rw [List.map_set, he, ← hk]
      have hf2 : l.findIdx p < (l.map key).length := by simpa using hf
      have := set_getElem_same (l.map key) (l.findIdx p) hf2
      simpa using this
    simp only [upsert, hf, if_true, hmap]
    exact hnd
  · have hall : ∀ x ∈ l, p x = false := by
      have hlen : l.findIdx p = l.length :=
        Nat.le_antisymm (List.findIdx_le_length p) (Nat.le_of_not_lt hf)
      intro x hx
      have := List.findIdx_eq_length.mp hlen x hx
      simpa using this
    simp only [upsert, hf, if_false, List.map_append, List.map_cons, List.map_nil, he]
    rw [List.nodup_append]
    refine ⟨hnd, List.nodup_singleton k, ?_⟩
    intro a ha hak
    obtain ⟨x, hx, hxa⟩ := List.mem_map.mp ha
    have hka : a = k := by simpa using hak
    have hpx : p x = true := (hp x).mpr (hxa.trans hka)
    rw [hall x hx] at hpx
    exact absurd hpx (by simp)

theorem ownsSentence_iff (u : String) (s : SentenceEntry) :
    ownsSentence u s = true ↔ s.username = u := by
  simp [ownsSentence]

theorem ownsGuess_iff (u : String) (g : GuessEntry) :
    ownsGuess u g = true ↔ g.guesserUsername = u := by
  simp [ownsGuess]

/-- C4: for a logged-in student `u` and a text `t`, submit-sentence fails when the phase is
not 2 or `t` consists of whitespace only (the empty text included); otherwise it succeeds,
and then, if some entry has username `u`, the first such entry becomes `(u, trim t)` with
every other position, the length and the order unchanged, and if none has, the entry
`(u, trim t)` is appended. Phase, users and guesses are unchanged in every case. -/
theorem submitSentence_spec (data : GameState) (sess : Session) (u t : String)
    (hu : loggedIn sess = some u) :
    ((data.phase ≠ 2 ∨ t = "" ∨ (∀ c ∈ t.data, isTrimChar c = true)) →
      (submitSentence data sess (some (.str t))).1.isOk = false ∧
      (submitSentence data sess (some (.str t))).2.sentences = data.sentences) ∧
    ((data.phase = 2 ∧ ¬ (∀ c ∈ t.data, isTrimChar c = true)) →
      (submitSentence data sess (some (.str t))).1.isOk = true ∧
      ((∃ s ∈ data.sentences, s.username = u) →
        ∃ i, ∃ hi : i < data.sentences.length,
          data.sentences[i].username = u ∧
          (∀ j, ∀ hj : j < data.sentences.length, j < i → data.sentences[j].username ≠ u) ∧
          (submitSentence data sess (some (.str t))).2.sentences
            = data.sentences.set i ⟨u, trim t⟩) ∧
      ((∀ s ∈ data.sentences, s.username ≠ u) →
        (submitSentence data sess (some (.str t))).2.sentences
          = data.sentences ++ [⟨u, trim t⟩])) ∧
    (submitSentence data sess (some (.str t))).2.phase = data.phase ∧
    (submitSentence data sess (some (.str t))).2.users = data.users ∧
    (submitSentence data sess (some (.str t))).2.guesses = data.guesses := by
  refine ⟨?_, ?_, submitSentence_frame data sess _⟩
  · intro hbad
    by_cases hp : data.phase = 2
    · have hblank : trim t = "" := by
        rcases hbad with h | h | h
        · exact absurd hp h
        · rw [h]; exact trim_empty
        · exact (trim_eq_empty_iff t).mpr h
      unfold submitSentence
      rw [hu]
      by_cases hne : t = ""
      · simp [hp, truthy, hne, Reply.isOk]
      · simp [hp, truthy, hne, hblank, Reply.isOk]
    · have h := submitSentence_closed data sess (some (.str t)) hp
      exact ⟨h.1, by rw [h.2]⟩
  · rintro ⟨hp, hnb⟩
    have ht : trim t ≠ "" := fun h => hnb ((trim_eq_empty_iff t).mp h)
    rw [submitSentence_ok data sess u t hu hp ht]
    refine ⟨rfl, ?_, ?_⟩
    · rintro ⟨x, hx, hxu⟩
      obtain ⟨i, hi, h1, h2, h3⟩ := upsert_found (ownsSentence u) ⟨u, trim t⟩ data.sentences
        ⟨x, hx, (ownsSentence_iff u x).mpr hxu⟩
      refine ⟨i, hi, (ownsSentence_iff u _).mp h1, ?_, h3⟩
      intro j hj hji hju
      have := h2 j hj hji
      rw [(ownsSentence_iff u _).mpr hju] at this
      exact absurd this (by simp)
    · intro hall
      exact upsert_missing (ownsSentence u) ⟨u, trim t⟩ data.sentences (fun x hx => by
        have := hall x hx
        simpa [ownsSentence] using this)

/-- Witness for C4: student `b` resubmits in phase 2. -/
theorem submitSentence_spec_witness :
    loggedIn (studentSession "b") = some "b" ∧
    (submitSentence { defaults with phase := 2, sentences := [⟨"a", "S"⟩, ⟨"b", "T"⟩] }
      (studentSession "b") (some (.str " U "))).2.users = [] :=
  ⟨rfl, (submitSentence_spec
    { defaults with phase := 2, sentences := [⟨"a", "S"⟩, ⟨"b", "T"⟩] }
    (studentSession "b") "b" " U " rfl).2.2.2.1⟩

/-- C5: in phase 2, with at most one entry per username, submitting `t1` and then `t2` as
the same student gives the same document as submitting `t2` alone; both submissions succeed,
the entry of the student after the second one is `(u, trim t2)` at the index its entry had
after the first one, and no other index holds an entry of that student. -/
theorem submitSentence_last_write_wins (data : GameState) (sess : Session) (u t1 t2 : String)
    (hu : loggedIn sess = some u) (hp : data.phase = 2)
    (hnd : (data.sentences.map (fun s => s.username)).Nodup)
    (h1 : trim t1 ≠ "") (h2 : trim t2 ≠ "") :
    (submitSentence data sess (some (.str t1))).1.isOk = true ∧
    (submitSentence (submitSentence data sess (some (.str t1))).2 sess
      (some (.str t2))).1.isOk = true ∧
    (submitSentence (submitSentence data sess (some (.str t1))).2 sess (some (.str t2))).2
      = (submitSentence data sess (some (.str t2))).2 ∧
    ∃ i : Nat, (submitSentence data sess (some (.str t1))).2.sentences[i]?
        = some (⟨u, trim t1⟩ : SentenceEntry) ∧
      (submitSentence (submitSentence data sess (some (.str t1))).2 sess
        (some (.str t2))).2.sentences[i]? = some (⟨u, trim t2⟩ : SentenceEntry) ∧
      ∀ (j : Nat) (e : SentenceEntry), (submitSentence (submitSentence data sess (some (.str t1))).2 sess
        (some (.str t2))).2.sentences[j]? = some e → e.username = u → j = i := by
  have hown1 : ownsSentence u ⟨u, trim t1⟩ = true := (ownsSentence_iff u _).mpr rfl
  have hown2 : ownsSentence u ⟨u, trim t2⟩ = true := (ownsSentence_iff u _).mpr rfl
  have e1 := submitSentence_ok data sess u t1 hu hp h1
  have e2 := submitSentence_ok data sess u t2 hu hp h2
  have e12 := submitSentence_ok
    { data with sentences := upsert (ownsSentence u) ⟨u, trim t1⟩ data.sentences }
    sess u t2 hu hp h2
  rw [e1]
  dsimp only
  rw [e12, e2]
  dsimp only
  rw [upsert_upsert (ownsSentence u) _ _ data.sentences hown1]
  refine ⟨rfl, rfl, rfl, data.sentences.findIdx (ownsSentence u), ?_, ?_, ?_⟩
  · exact (findIdx_upsert (ownsSentence u) _ data.sentences hown1).2.2
  · exact (findIdx_upsert (ownsSentence u) _ data.sentences hown2).2.2
  · intro j e hj heu
    have hnd2 := upsert_keys_nodup (fun s : SentenceEntry => s.username) u (ownsSentence u)
      ⟨u, trim t2⟩ data.sentences (ownsSentence_iff u) rfl hnd
    have hi := (findIdx_upsert (ownsSentence u) ⟨u, trim t2⟩ data.sentences hown2).2.2
    have hjm : (List.map (fun s : SentenceEntry => s.username)
        (upsert (ownsSentence u) ⟨u, trim t2⟩ data.sentences))[j]? = some u := by
      rw [List.getElem?_map, hj]; simp [heu]
    have him : (List.map (fun s : SentenceEntry => s.username)
        (upsert (ownsSentence u) ⟨u, trim t2⟩ data.sentences))[
          data.sentences.findIdx (ownsSentence u)]? = some u := by
      rw [List.getElem?_map, hi]; rfl
    obtain ⟨hjl, hjv⟩ := List.getElem?_eq_some_iff.mp hjm
    obtain ⟨hil, hiv⟩ := List.getElem?_eq_some_iff.mp him
    exact (List.Nodup.getElem_inj_iff hnd2).mp (hjv.trans hiv.symm)

/-- Witness for C5: student `b` submits twice in phase 2. -/
theorem submitSentence_last_write_wins_witness :
    (submitSentence (submitSentence
        { defaults with phase := 2, sentences := [⟨"a", "S"⟩] }
        (studentSession "b") (some (.str "T"))).2 (studentSession "b") (some (.str " U "))).2
      = (submitSentence { defaults with phase := 2, sentences := [⟨"a", "S"⟩] }
          (studentSession "b") (some (.str " U "))).2 :=
  (submitSentence_last_write_wins { defaults with phase := 2, sentences := [⟨"a", "S"⟩] }
    (studentSession "b") "b" "T" " U " rfl rfl (by decide) (by decide) (by decide)).2.2.1

theorem upsert_unique {α : Type} (p : α → Bool) (e : α) (l : List α)
    (huniq : ∀ i j, ∀ hi : i < l.length, ∀ hj : j < l.length,
      p l[i] = true → p l[j] = true → i = j) :
    ∀ (j : Nat) (x : α), (upsert p e l)[j]? = some x → p x = true → j = l.findIdx p := by
  intro j x hj hx
  by_cases hf : l.findIdx p < l.length
  · simp only [upsert, hf, if_true] at hj
    by_cases hji : l.findIdx p = j
    · exact hji.symm
    · rw [List.getElem?_set_ne hji] at hj
      obtain ⟨hjl, hjv⟩ := List.getElem?_eq_some_iff.mp hj
      exact huniq j _ hjl hf (by rw [hjv]; exact hx) List.findIdx_getElem
  · have hlen : l.findIdx p = l.length :=
      Nat.le_antisymm (List.findIdx_le_length p) (Nat.le_of_not_lt hf)
    simp only [upsert, hf, if_false] at hj
    by_cases hjl : j < l.length
    · rw [List.getElem?_append_left hjl] at hj
      obtain ⟨_, hjv⟩ := List.getElem?_eq_some_iff.mp hj
      have hmem : x ∈ l := hjv ▸ List.getElem_mem hjl
      have := List.findIdx_eq_length.mp hlen x hmem
      rw [hx] at this
      exact absurd this (by simp)
    · obtain ⟨hjb, _⟩ := List.getElem?_eq_some_iff.mp hj
      simp at hjb
      omega

/-- The effect of an accepted guess submission with an object as guess map. -/
theorem submitGuesses_ok (data : GameState) (sess : Session) (u : String)
    (kvs : List (String × Json)) (hu : loggedIn sess = some u) (hp : data.phase = 3) :
    submitGuesses data sess (some (.obj kvs)) =
      (.ok (), { data with
        guesses := upsert (ownsGuess u) ⟨u, .obj kvs⟩ data.guesses }) := by
  unfold submitGuesses
  rw [hu]
  simp only [hp, ne_eq, not_true_eq_false, if_false]
  have hfun : (fun g : GuessEntry => g.guesserUsername == u) = ownsGuess u := rfl
  rw [hfun]
  by_cases hf : data.guesses.findIdx (ownsGuess u) < data.guesses.length
  · have hidx := findIndex_found (ownsGuess u) data.guesses hf
    have hown : ownsGuess u (data.guesses[data.guesses.findIdx (ownsGuess u)]) = true :=
      List.findIdx_getElem
    have hname : (data.guesses[data.guesses.findIdx (ownsGuess u)]).guesserUsername = u := by
      simpa [ownsGuess] using hown
    rw [hidx]
    simp only [ge_iff_le, Int.natCast_nonneg, if_true, Int.toNat_ofNat, upsert, hf,
      List.getElem?_eq_getElem hf, hname]
  · have hidx := findIndex_missing (ownsGuess u) data.guesses hf
    rw [hidx]
    simp [upsert, hf]

theorem submitGuesses_closed (data : GameState) (sess : Session) (guessMap : Option Json)
    (h : data.phase ≠ 3) :
    (submitGuesses data sess guessMap).1.isOk = false ∧
      (submitGuesses data sess guessMap).2 = data := by
  unfold submitGuesses
  split
  · exact ⟨rfl, rfl⟩
  · simp [h, Reply.isOk]

/-! ## Invariants of the reachable documents -/

/-- The outcomes of a registration: the document is kept, or one user with the normalized
username, which no stored user has, is appended. -/
theorem register_cases (env : Builtins) (data : GameState)
    (username displayName password : Option Json) :
    (register env data username displayName password).2 = data ∨
    ∃ un dn pw, (∀ x ∈ data.users, x.username ≠ env.toLowerCase (trim un)) ∧
      (register env data username displayName password).2 =
        { data with users := data.users ++
            [{ username := env.toLowerCase (trim un), displayName := trim dn,
               password := pw }] } := by
  unfold register
  split_ifs
  · left; rfl
  · left; rfl
  · split
    · rename_i un pw htruthy
      dsimp only
      split_ifs with hfound
      · left; rfl
      · split
        · rename_i dn
          right
          refine ⟨un, dn, pw, ?_, rfl⟩
          intro x hx hxe
          apply hfound
          rw [List.find?_isSome]
          exact ⟨x, hx, by simp [hxe]⟩
        · left; rfl
    · left; rfl

/-- The outcomes of a sentence submission: the document is kept, or the sentence list is
the replace-or-append of an entry of the session user. -/
theorem submitSentence_cases (data : GameState) (sess : Session) (text : Option Json) :
    (submitSentence data sess text).2 = data ∨
    ∃ u t, (submitSentence data sess text).2 =
      { data with sentences := upsert (ownsSentence u) ⟨u, t⟩ data.sentences } := by
  by_cases h : ∃ u t, loggedIn sess = some u ∧ data.phase = 2 ∧ text = some (.str t) ∧
      trim t ≠ ""
  · obtain ⟨u, t, hu, hp, htext, ht⟩ := h
    right
    exact ⟨u, trim t, by rw [htext, submitSentence_ok data sess u t hu hp ht]⟩
  · left
    unfold submitSentence
    split
    · rfl
    · rename_i u hu
      split_ifs with hp htruthy
      · rfl
      · rfl
      · split
        · rename_i t
          have hp2 : data.phase = 2 := not_not.mp hp
          dsimp only
          split_ifs with ht
          · rfl
          · exact absurd ⟨u, t, hu, hp2, rfl, ht⟩ h
          · exact absurd ⟨u, t, hu, hp2, rfl, ht⟩ h
        · rfl

/-- The outcomes of a guess submission: the document is kept, or the guess list is the
replace-or-append of an entry of the session user. -/
theorem submitGuesses_cases (data : GameState) (sess : Session) (guessMap : Option Json) :
    (submitGuesses data sess guessMap).2 = data ∨
    ∃ u m, (submitGuesses data sess guessMap).2 =
      { data with guesses := upsert (ownsGuess u) ⟨u, m⟩ data.guesses } := by
  cases hu : loggedIn sess with
  | none => left; simp [submitGuesses, hu]
  | some u =>
    by_cases hp : data.phase = 3
    · have hstore : ∀ m : GuessMap,
          (if findIndex (fun g : GuessEntry => g.guesserUsername == u) data.guesses ≥ 0 then
            match data.guesses[(findIndex (fun g : GuessEntry => g.guesserUsername == u)
                data.guesses).toNat]? with
            | some g =>
              ((Reply.ok () : Reply Unit), { data with
                guesses := data.guesses.set
                  (findIndex (fun g : GuessEntry => g.guesserUsername == u) data.guesses).toNat
                  { g with guessMap := m } })
            | none => (.error 500 "TypeError", data)
          else
            (.ok (), { data with
              guesses := data.guesses ++ [{ guesserUsername := u, guessMap := m }] })).2
          = { data with guesses := upsert (ownsGuess u) ⟨u, m⟩ data.guesses } := by
        intro m
        have hfun : (fun g : GuessEntry => g.guesserUsername == u) = ownsGuess u := rfl
        rw [hfun]
        by_cases hf : data.guesses.findIdx (ownsGuess u) < data.guesses.length
        · have hidx := findIndex_found (ownsGuess u) data.guesses hf
          have hown : ownsGuess u (data.guesses[data.guesses.findIdx (ownsGuess u)]) = true :=
            List.findIdx_getElem
          have hname : (data.guesses[data.guesses.findIdx (ownsGuess u)]).guesserUsername = u := by
            simpa [ownsGuess] using hown
          rw [hidx]
          simp only [ge_iff_le, Int.natCast_nonneg, if_true, Int.toNat_ofNat, upsert, hf,
            List.getElem?_eq_getElem hf, hname]
        · have hidx := findIndex_missing (ownsGuess u) data.guesses hf
          rw [hidx]
          simp [upsert, hf]
      have hnp : ¬ (data.phase ≠ 3) := not_not.mpr hp
      unfold submitGuesses
      rw [hu]
      dsimp only
      rw [if_neg hnp]
      split
      · right; exact ⟨u, _, hstore _⟩
      · right; exact ⟨u, _, hstore _⟩
      · left; rfl
    · left; exact (submitGuesses_closed data sess guessMap hp).2

/-- The induction over the reachable documents: unique usernames, normalized usernames,
at most one sentence per username and at most one guess entry per guesser. -/
theorem reachable_keys (env : Builtins) (data : GameState) (h : Reachable env data) :
    (data.users.map (fun x => x.username)).Nodup ∧
    (∀ x ∈ data.users, ∃ raw : String, x.username = env.toLowerCase (trim raw)) ∧
    (data.sentences.map (fun x => x.username)).Nodup ∧
    (data.guesses.map (fun x => x.guesserUsername)).Nodup := by
  induction h with
  | init => simp [defaults]
  | @step data _ sess op ih =>
    obtain ⟨hu, hn, hs, hg⟩ := ih
    cases op with
    | register username displayName password =>
      simp only [step]
      rcases register_cases env data username displayName password with he | ⟨un, dn, pw, hnew, he⟩
      · rw [he]; exact ⟨hu, hn, hs, hg⟩
      · rw [he]
        refine ⟨?_, ?_, hs, hg⟩
        · simp only [List.map_append, List.map_cons, List.map_nil]
          rw [List.nodup_append]
          refine ⟨hu, List.nodup_singleton _, ?_⟩
          intro a ha hak
          obtain ⟨x, hx, hxa⟩ := List.mem_map.mp ha
          have hka : a = env.toLowerCase (trim un) := by simpa using hak
          exact hnew x hx (hxa.trans hka)
        · intro x hx
          rcases List.mem_append.mp hx with hold | hnewx
          · exact hn x hold
          · have hxeq := List.mem_singleton.mp hnewx
            exact ⟨un, by rw [hxeq]⟩
    | login username password =>
      simp only [step, login_state env data username password]
      exact ⟨hu, hn, hs, hg⟩
    | submitSentence text =>
      simp only [step]
      rcases submitSentence_cases data sess text with he | ⟨u, t, he⟩
      · rw [he]; exact ⟨hu, hn, hs, hg⟩
      · rw [he]
        exact ⟨hu, hn, upsert_keys_nodup (fun x : SentenceEntry => x.username) u
          (ownsSentence u) ⟨u, t⟩ data.sentences (ownsSentence_iff u) rfl hs, hg⟩
    | sentences =>
      simp only [step, sentencesListing_state env data sess]
      exact ⟨hu, hn, hs, hg⟩
    | submitGuesses guessMap =>
      simp only [step]
      rcases submitGuesses_cases data sess guessMap with he | ⟨u, m, he⟩
      · rw [he]; exact ⟨hu, hn, hs, hg⟩
      · rw [he]
        exact ⟨hu, hn, hs, upsert_keys_nodup (fun x : GuessEntry => x.guesserUsername) u
          (ownsGuess u) ⟨u, m⟩ data.guesses (ownsGuess_iff u) rfl hg⟩
    | results =>
      simp only [step, results_state data sess]
      exact ⟨hu, hn, hs, hg⟩
    | setPhase phase draws =>
      simp only [step]
      rcases setPhase_cases draws data sess phase with ⟨_, he⟩ | ⟨p, _, _, _, _, _, _, he⟩
      · rw [he]; exact ⟨hu, hn, hs, hg⟩
      · rw [he]
        refine ⟨hu, hn, ?_, hg⟩
        dsimp only
        split_ifs
        · exact ((shuffle_perm draws data.sentences).map _).nodup_iff.mpr hs
        · exact hs
    | reset =>
      simp only [step, reset]
      split_ifs
      · exact ⟨hu, hn, hs, hg⟩
      · simp [defaults]

/-- C7: in every document reachable from the default document by any requests with any
sessions and inputs, no two users share a username, every stored username is the
normalization `toLowerCase(trim(raw))` of a submitted name, no two sentence entries share a
username, and no two guess entries share a guesser. -/
theorem reachable_invariants (env : Builtins) (data : GameState) (h : Reachable env data) :
    (data.users.map (fun x => x.username)).Nodup ∧
    (∀ x ∈ data.users, ∃ raw : String, x.username = env.toLowerCase (trim raw)) ∧
    (data.sentences.map (fun x => x.username)).Nodup ∧
    (data.guesses.map (fun x => x.guesserUsername)).Nodup :=
  reachable_keys env data h

/-- Witness for C7: the document after `Alice` registers in phase 1. -/
theorem reachable_invariants_witness :
    Reachable asciiBuiltins (step asciiBuiltins defaults (studentSession "")
      (.register (some (.str " Alice ")) (some (.str "Alice")) (some (.str "pw")))).2 ∧
    ((step asciiBuiltins defaults (studentSession "")
      (.register (some (.str " Alice ")) (some (.str "Alice")) (some (.str "pw")))).2.users.map
        (fun x => x.username)).Nodup :=
  ⟨Reachable.step Reachable.init _ _,
   (reachable_invariants asciiBuiltins _ (Reachable.step Reachable.init (studentSession "")
      (.register (some (.str " Alice ")) (some (.str "Alice")) (some (.str "pw"))))).1⟩

/-! ## Guess submission on the documents the server can hold -/

/-- C6: for a logged-in student `u` and an object `m`, submit-guesses fails when the phase
is not 3 and otherwise succeeds without looking at the keys or values of `m`: if some entry
has guesser `u`, the first such entry becomes `(u, m)` in place (the other entries and the
order unchanged), else `(u, m)` is appended. Submitting `m1` and then `m2` gives the
document of submitting `m2` alone, in which an entry of the guesser holds `m2`; it is the
only entry of the guesser in every document reachable from the default document (and in
every document that held at most one entry of the guesser). Phase, users and sentences are
unchanged. -/
theorem submitGuesses_spec (env : Builtins) (data : GameState) (sess : Session) (u : String)
    (m1 m2 : List (String × Json)) (hu : loggedIn sess = some u) :
    (data.phase ≠ 3 →
      (submitGuesses data sess (some (.obj m1))).1.isOk = false ∧
      (submitGuesses data sess (some (.obj m1))).2.guesses = data.guesses) ∧
    (data.phase = 3 →
      (submitGuesses data sess (some (.obj m1))).1.isOk = true ∧
      ((∃ g ∈ data.guesses, g.guesserUsername = u) →
        ∃ i, ∃ hi : i < data.guesses.length,
          data.guesses[i].guesserUsername = u ∧
          (∀ j, ∀ hj : j < data.guesses.length, j < i → data.guesses[j].guesserUsername ≠ u) ∧
          (submitGuesses data sess (some (.obj m1))).2.guesses
            = data.guesses.set i ⟨u, .obj m1⟩) ∧
      ((∀ g ∈ data.guesses, g.guesserUsername ≠ u) →
        (submitGuesses data sess (some (.obj m1))).2.guesses
          = data.guesses ++ [⟨u, .obj m1⟩]) ∧
      (submitGuesses (submitGuesses data sess (some (.obj m1))).2 sess
        (some (.obj m2))).1.isOk = true ∧
      (submitGuesses (submitGuesses data sess (some (.obj m1))).2 sess (some (.obj m2))).2
        = (submitGuesses data sess (some (.obj m2))).2 ∧
      ∃ i : Nat, (submitGuesses (submitGuesses data sess (some (.obj m1))).2 sess
          (some (.obj m2))).2.guesses[i]? = some (⟨u, .obj m2⟩ : GuessEntry) ∧
        ((∀ a b, ∀ ha : a < data.guesses.length, ∀ hb : b < data.guesses.length,
            data.guesses[a].guesserUsername = u → data.guesses[b].guesserUsername = u → a = b) →
          ∀ (j : Nat) (e : GuessEntry),
            (submitGuesses (submitGuesses data sess (some (.obj m1))).2 sess
              (some (.obj m2))).2.guesses[j]? = some e → e.guesserUsername = u → j = i) ∧
        (Reachable env data →
          ∀ (j : Nat) (e : GuessEntry),
            (submitGuesses (submitGuesses data sess (some (.obj m1))).2 sess
              (some (.obj m2))).2.guesses[j]? = some e → e.guesserUsername = u → j = i)) ∧
    (submitGuesses data sess (some (.obj m1))).2.phase = data.phase ∧
    (submitGuesses data sess (some (.obj m1))).2.users = data.users ∧
    (submitGuesses data sess (some (.obj m1))).2.sentences = data.sentences := by
  refine ⟨?_, ?_, submitGuesses_frame data sess _⟩
  · intro hp
    have h := submitGuesses_closed data sess (some (.obj m1)) hp
    exact ⟨h.1, by rw [h.2]⟩
  · intro hp
    have hown1 : ownsGuess u ⟨u, .obj m1⟩ = true := (ownsGuess_iff u _).mpr rfl
    have e1 := submitGuesses_ok data sess u m1 hu hp
    have e2 := submitGuesses_ok data sess u m2 hu hp
    have e12 := submitGuesses_ok
      { data with guesses := upsert (ownsGuess u) ⟨u, .obj m1⟩ data.guesses } sess u m2 hu hp
    rw [e1]
    dsimp only
    rw [e12, e2]
    dsimp only
    rw [upsert_upsert (ownsGuess u) _ _ data.guesses hown1]
    refine ⟨rfl, ?_, ?_, rfl, rfl, data.guesses.findIdx (ownsGuess u), ?_, ?_, ?_⟩
    · rintro ⟨x, hx, hxu⟩
      obtain ⟨i, hi, h1, h2, h3⟩ := upsert_found (ownsGuess u) ⟨u, .obj m1⟩ data.guesses
        ⟨x, hx, (ownsGuess_iff u x).mpr hxu⟩
      refine ⟨i, hi, (ownsGuess_iff u _).mp h1, ?_, h3⟩
      intro j hj hji hju
      have := h2 j hj hji
      rw [(ownsGuess_iff u _).mpr hju] at this
      exact absurd this (by simp)
    · intro hall
      exact upsert_missing (ownsGuess u) ⟨u, .obj m1⟩ data.guesses (fun x hx => by
        have := hall x hx
        simpa [ownsGuess] using this)
    · exact (findIdx_upsert (ownsGuess u) ⟨u, .obj m2⟩ data.guesses
        ((ownsGuess_iff u _).mpr rfl)).2.2
    · intro huniq j e hj heu
      exact upsert_unique (ownsGuess u) ⟨u, .obj m2⟩ data.guesses
        (fun a b ha hb hpa hpb =>
          huniq a b ha hb ((ownsGuess_iff u _).mp hpa) ((ownsGuess_iff u _).mp hpb))
        j e hj ((ownsGuess_iff u e).mpr heu)
    · intro hreach j e hj heu
      have hnd := (reachable_keys env data hreach).2.2.2
      exact upsert_unique (ownsGuess u) ⟨u, .obj m2⟩ data.guesses
        (fun a b ha hb hpa hpb => by
          have ha2 : a < (data.guesses.map (fun x => x.guesserUsername)).length := by
            simpa using ha
          have hb2 : b < (data.guesses.map (fun x => x.guesserUsername)).length := by
            simpa using hb
          have hmap : (data.guesses.map (fun x => x.guesserUsername))[a]
              = (data.guesses.map (fun x => x.guesserUsername))[b] := by
            simp only [List.getElem_map]
            rw [(ownsGuess_iff u _).mp hpa, (ownsGuess_iff u _).mp hpb]
          exact (List.Nodup.getElem_inj_iff hnd).mp hmap)
        j e hj ((ownsGuess_iff u e).mpr heu)

/-- Witness for C6: student `a` guesses twice in the phase-3 document that the admin
reaches from the default document. -/
theorem submitGuesses_spec_witness :
    loggedIn (studentSession "a") = some "a" ∧
    (submitGuesses (step asciiBuiltins defaults adminSession
        (.setPhase (some (.num 3)) zeroDraws)).2 (studentSession "a")
      (some (.obj [("b", .str "S")]))).2.users
      = (step asciiBuiltins defaults adminSession (.setPhase (some (.num 3)) zeroDraws)).2.users :=
  ⟨rfl, (submitGuesses_spec asciiBuiltins
    (step asciiBuiltins defaults adminSession (.setPhase (some (.num 3)) zeroDraws)).2
    (studentSession "a") "a" [("b", .str "S")] [("b", .str "T")] rfl).2.2.2.1⟩

/-! ## Scoring -/

theorem strictEq_str_iff (t : String) (v : Json) :
    strictEq (.str t) v = true ↔ v = .str t := by
  cases v with
  | str s => simp only [strictEq, beq_iff_eq, Json.str.injEq]; exact eq_comm
  | _ => simp [strictEq]

/-- The inner loop counts the entries that are not the own key and match the answer key. -/
theorem scoreEntries_eq_countP (answerKey : List (String × String)) (username : String)
    (entries : List (String × Json)) :
    scoreEntries answerKey username entries =
      entries.countP (fun kv => !(kv.1 == username) && answerKeyMatches answerKey kv.1 kv.2) := by
  have hgen : ∀ (acc : Nat), entries.foldl (fun score kv =>
      if kv.1 == username then score
      else if answerKeyMatches answerKey kv.1 kv.2 then score + 1
      else score) acc =
      acc + entries.countP
        (fun kv => !(kv.1 == username) && answerKeyMatches answerKey kv.1 kv.2) := by
    induction entries with
    | nil => intro acc; simp
    | cons kv rest ih =>
      intro acc
      rw [List.foldl_cons, ih, List.countP_cons]
      by_cases h1 : (kv.1 == username) = true
      · simp [h1]
      · by_cases h2 : answerKeyMatches answerKey kv.1 kv.2 = true
        · simp [h1, h2]; omega
        · simp [h1, h2]
  unfold scoreEntries
  rw [hgen 0]
  simp

/-- With at most one sentence per username the assignment loop never overwrites: the own
properties of the answer key are the sentences in stored order, the one of the user
`__proto__` left out. -/
theorem buildAnswerKey_eq (sentences : List SentenceEntry)
    (hnd : (sentences.map (fun x => x.username)).Nodup) :
    buildAnswerKey sentences =
      (sentences.filter (fun x => decide (x.username ≠ "__proto__"))).map
        (fun x => (x.username, x.text)) := by
  have hgen : ∀ (rest : List SentenceEntry) (acc : List (String × String)),
      (rest.map (fun x => x.username)).Nodup →
      (∀ kv ∈ acc, ∀ x ∈ rest, kv.1 ≠ x.username) →
      rest.foldl (fun answerKey x => answerKeySet answerKey x.username x.text) acc =
        acc ++ (rest.filter (fun x => decide (x.username ≠ "__proto__"))).map
          (fun x => (x.username, x.text)) := by
    intro rest
    induction rest with
    | nil => intro acc _ _; simp
    | cons x rest ih =>
      intro acc hnd hfresh
      obtain ⟨hx, hrest⟩ := List.nodup_cons.mp hnd
      rw [List.foldl_cons]
      by_cases hproto : x.username = "__proto__"
      · have hset : answerKeySet acc x.username x.text = acc := by simp [answerKeySet, hproto]
        rw [hset, ih acc hrest (fun kv hkv y hy => hfresh kv hkv y (List.mem_cons_of_mem _ hy))]
        simp [List.filter_cons, hproto]
      · have hany : acc.any (fun kv => kv.1 == x.username) = false := by
          rw [List.any_eq_false]
          intro kv hkv hk
          exact hfresh kv hkv x (List.mem_cons_self _ _) (by simpa using hk)
        have hset : answerKeySet acc x.username x.text = acc ++ [(x.username, x.text)] := by
          simp [answerKeySet, hproto, hany]
        rw [hset, ih _ hrest]
        · simp [List.filter_cons, hproto]
        · intro kv hkv y hy
          rcases List.mem_append.mp hkv with hold | hnew
          · exact hfresh kv hold y (List.mem_cons_of_mem _ hy)
          · have hkv2 : kv = (x.username, x.text) := by simpa using hnew
            rw [hkv2]
            intro heq
            exact hx (List.mem_map.mpr ⟨y, hy, heq.symm⟩)
  have := hgen sentences [] hnd (fun kv hkv => absurd hkv (List.not_mem_nil kv))
  simpa [buildAnswerKey] using this

/-- With at most one sentence per username, the test `answerKey[k] === v` succeeds exactly
when `k` is not `__proto__` and some stored sentence has username `k` and text `v`. -/
theorem answerKeyMatches_iff (sentences : List SentenceEntry)
    (hnd : (sentences.map (fun x => x.username)).Nodup) (k : String) (v : Json) :
    answerKeyMatches (buildAnswerKey sentences) k v = true ↔
      k ≠ "__proto__" ∧ ∃ x ∈ sentences, x.username = k ∧ v = .str x.text := by
  rw [buildAnswerKey_eq sentences hnd]
  induction sentences with
  | nil => simp [answerKeyMatches]
  | cons x rest ih =>
    obtain ⟨hx, hrest⟩ := List.nodup_cons.mp hnd
    have ih2 := ih hrest
    by_cases hproto : x.username = "__proto__"
    · have hfil : (List.filter (fun x => decide (x.username ≠ "__proto__")) (x :: rest))
          = List.filter (fun x => decide (x.username ≠ "__proto__")) rest := by
        simp [List.filter_cons, hproto]
      rw [hfil, ih2]
      constructor
      · rintro ⟨hk, y, hy, hyk, hv⟩
        exact ⟨hk, y, List.mem_cons_of_mem _ hy, hyk, hv⟩
      · rintro ⟨hk, y, hy, hyk, hv⟩
        rcases List.mem_cons.mp hy with hyx | hyr
        · subst hyx; exact absurd (hyk.symm.trans hproto) hk
        · exact ⟨hk, y, hyr, hyk, hv⟩
    · have hfil : (List.filter (fun x => decide (x.username ≠ "__proto__")) (x :: rest))
          = x :: List.filter (fun x => decide (x.username ≠ "__proto__")) rest := by
        simp [List.filter_cons, hproto]
      rw [hfil, List.map_cons]
      by_cases hk : k = x.username
      · subst hk
        have hlook : answerKeyMatches ((x.username, x.text) ::
            List.map (fun x => (x.username, x.text))
              (List.filter (fun x => decide (x.username ≠ "__proto__")) rest)) x.username v
            = strictEq (.str x.text) v := by
          simp [answerKeyMatches, List.lookup_cons]
        rw [hlook, strictEq_str_iff]
        constructor
        · intro hv; exact ⟨hproto, x, List.mem_cons_self _ _, rfl, hv⟩
        · rintro ⟨_, y, hy, hyk, hv⟩
          rcases List.mem_cons.mp hy with hyx | hyr
          · subst hyx; exact hv
          · exact absurd (List.mem_map.mpr ⟨y, hyr, hyk⟩) hx
      · have hlook : answerKeyMatches ((x.username, x.text) ::
            List.map (fun x => (x.username, x.text))
              (List.filter (fun x => decide (x.username ≠ "__proto__")) rest)) k v
            = answerKeyMatches (List.map (fun x => (x.username, x.text))
              (List.filter (fun x => decide (x.username ≠ "__proto__")) rest)) k v := by
          have hbeq : (k == x.username) = false := by simpa using hk
          simp [answerKeyMatches, List.lookup_cons, hbeq]
        rw [hlook, ih2]
        constructor
        · rintro ⟨hk2, y, hy, hyk, hv⟩
          exact ⟨hk2, y, List.mem_cons_of_mem _ hy, hyk, hv⟩
        · rintro ⟨hk2, y, hy, hyk, hv⟩
          rcases List.mem_cons.mp hy with hyx | hyr
          · subst hyx; exact absurd hyk.symm hk
          · exact ⟨hk2, y, hyr, hyk, hv⟩

/-- What the scoring loop computes when each username has at most one sentence: the
number of guess-map entries whose key is neither the own username nor `__proto__` and whose
value is the text of the sentence stored for the key; 0 without a guess entry. -/
theorem scoreRow_score (data : GameState)
    (hnd : (data.sentences.map (fun x => x.username)).Nodup) (user : User) :
    (scoreRow data (buildAnswerKey data.sentences) user).score =
      match data.guesses.find? (fun g => g.guesserUsername == user.username) with
      | some guessEntry =>
        (objectEntries guessEntry.guessMap).countP (fun kv =>
          !(kv.1 == user.username) && !(kv.1 == "__proto__") &&
          data.sentences.any (fun x => x.username == kv.1 && strictEq (.str x.text) kv.2))
      | none => 0 := by
  unfold scoreRow
  dsimp only
  split
  · rw [scoreEntries_eq_countP]
    congr 1
    funext kv
    have h := answerKeyMatches_iff data.sentences hnd kv.1 kv.2
    by_cases hm : answerKeyMatches (buildAnswerKey data.sentences) kv.1 kv.2 = true
    · obtain ⟨hk, x, hx, hxk, hv⟩ := h.mp hm
      have hany : data.sentences.any
          (fun x => x.username == kv.1 && strictEq (.str x.text) kv.2) = true := by
        rw [List.any_eq_true]
        exact ⟨x, hx, by simp [hxk, (strictEq_str_iff x.text kv.2).mpr hv]⟩
      simp [hm, hany, hk]
    · have hm2 : answerKeyMatches (buildAnswerKey data.sentences) kv.1 kv.2 = false := by
        simpa using hm
      rw [hm2]
      by_cases hk : kv.1 = "__proto__"
      · simp [hk]
      · have hany : data.sentences.any
            (fun x => x.username == kv.1 && strictEq (.str x.text) kv.2) = false := by
          rw [List.any_eq_false]
          intro x hx hxm
          simp only [Bool.and_eq_true, beq_iff_eq] at hxm
          exact hm (h.mpr ⟨hk, x, hx, hxm.1, (strictEq_str_iff _ _).mp hxm.2⟩)
        simp [hany]
  · rfl

/-- The scoreboard has exactly the rows computed for the registered users. -/
theorem results_scoreboard_mem (data : GameState) (sess : Session) (payload : ResultsPayload)
    (h : (results data sess).1 = .ok payload) (row : ScoreRow) :
    row ∈ payload.scoreboard ↔
      ∃ user ∈ data.users, row = scoreRow data (buildAnswerKey data.sentences) user := by
  unfold results at h
  split at h
  · simp at h
  · by_cases hlt : data.phase < 4
    · simp [hlt] at h
    · rw [if_neg hlt] at h
      have hp : payload.scoreboard = sortBy
          (fun a b => decide ((b.score : Int) - (a.score : Int) ≤ 0))
          (data.users.map (scoreRow data (buildAnswerKey data.sentences))) := by
        injection h with h
        rw [← h]
      rw [hp, sortBy, (List.perm_insertionSort _ _).mem_iff, List.mem_map]
      constructor
      · rintro ⟨user, hu, he⟩; exact ⟨user, hu, he.symm⟩
      · rintro ⟨user, hu, he⟩; exact ⟨user, hu, he.symm⟩

/-- C3: with users `a` and `__proto__`, sentences `a: "S_A"` and `__proto__: "S_P"`, and the
guess map `{"__proto__": "S_P"}` of `a`, the guess names another user and repeats that
user's sentence exactly, so the claimed score of `a` is 1; results succeeds and every
scoreboard row of `a` has score 0. -/
theorem results_misses_proto_author :
    (∃ payload, (results
        { phase := 4,
          users := [⟨"a", "A", .str "pw"⟩, ⟨"__proto__", "P", .str "pw"⟩],
          sentences := [⟨"a", "S_A"⟩, ⟨"__proto__", "S_P"⟩],
          guesses := [⟨"a", .obj [("__proto__", .str "S_P")]⟩] }
        (studentSession "a")).1 = .ok payload ∧
      ∀ row ∈ payload.scoreboard, row.username = "a" → row.score = 0) ∧
    (("__proto__", Json.str "S_P") ∈ objectEntries (.obj [("__proto__", .str "S_P")]) ∧
      "__proto__" ≠ "a" ∧
      (⟨"__proto__", "S_P"⟩ : SentenceEntry) ∈
        ([⟨"a", "S_A"⟩, ⟨"__proto__", "S_P"⟩] : List SentenceEntry)) := by
  refine ⟨?_, by simp [objectEntries], by decide, by simp⟩
  have hok : ((results
        { phase := 4,
          users := [⟨"a", "A", .str "pw"⟩, ⟨"__proto__", "P", .str "pw"⟩],
          sentences := [⟨"a", "S_A"⟩, ⟨"__proto__", "S_P"⟩],
          guesses := [⟨"a", .obj [("__proto__", .str "S_P")]⟩] }
        (studentSession "a")).1).isOk = true := by
    simp [results, loggedIn, studentSession, Reply.isOk]
  cases hres : (results
        { phase := 4,
          users := [⟨"a", "A", .str "pw"⟩, ⟨"__proto__", "P", .str "pw"⟩],
          sentences := [⟨"a", "S_A"⟩, ⟨"__proto__", "S_P"⟩],
          guesses := [⟨"a", .obj [("__proto__", .str "S_P")]⟩] }
        (studentSession "a")).1 with
  | error status message => rw [hres] at hok; simp [Reply.isOk] at hok
  | ok payload =>
    refine ⟨payload, rfl, ?_⟩
    intro row hrow hname
    obtain ⟨user, hu, he⟩ := (results_scoreboard_mem _ _ payload hres row).mp hrow
    simp only [List.mem_cons, List.mem_singleton, List.not_mem_nil, or_false] at hu
    rcases hu with hu | hu
    · subst hu
      rw [he]
      decide
    · subst hu
      rw [he] at hname
      simp [scoreRow] at hname

/-! ## Phase transitions -/

/-- C1: for a document whose phase is an integer `c` (in particular any `c` in `1..4`) and
an integer target `p`, set-phase (as admin) succeeds exactly when `1 <= p <= 4` and `p > c`;
on success the stored phase is `p`, on failure it stays `c`. -/
theorem setPhase_integer_target (draws : Draws) (data : GameState) (sess : Session)
    (c p : ℤ) (hadmin : sess.isAdmin = true) (hphase : data.phase = (c : ℚ)) :
    ((setPhase draws data sess (some (.num (p : ℚ)))).1.isOk = true ↔
        (1 ≤ p ∧ p ≤ 4 ∧ c < p)) ∧
    ((setPhase draws data sess (some (.num (p : ℚ)))).1.isOk = true →
        (setPhase draws data sess (some (.num (p : ℚ)))).2.phase = (p : ℚ)) ∧
    ((setPhase draws data sess (some (.num (p : ℚ)))).1.isOk = false →
        (setPhase draws data sess (some (.num (p : ℚ)))).2.phase = (c : ℚ)) := by
  have h1 : ((p : ℚ) < 1 ∨ (p : ℚ) > 4) ↔ (p < 1 ∨ 4 < p) := by
    constructor
    · rintro (h | h)
      · left; exact_mod_cast h
      · right; exact_mod_cast h
    · rintro (h | h)
      · left; exact_mod_cast h
      · right; exact_mod_cast h
  have h2 : ((p : ℚ) ≤ data.phase) ↔ p ≤ c := by
    rw [hphase]; exact Int.cast_le
  unfold setPhase
  simp only [hadmin, Bool.not_true, Bool.false_eq_true, if_false]
  by_cases hr : ((p : ℚ) < 1 ∨ (p : ℚ) > 4)
  · have hr2 := h1.mp hr
    simp only [hr, if_true, Reply.isOk]
    refine ⟨⟨fun h => by simp at h, fun h => by omega⟩, fun h => by simp at h, fun _ => hphase⟩
  · have hr2 : ¬ (p < 1 ∨ 4 < p) := fun h => hr (h1.mpr h)
    simp only [hr, if_false]
    by_cases ho : (p : ℚ) ≤ data.phase
    · have ho2 := h2.mp ho
      simp only [ho, if_true, Reply.isOk]
      refine ⟨⟨fun h => by simp at h, fun h => by omega⟩, fun h => by simp at h,
        fun _ => hphase⟩
    · have ho2 : ¬ p ≤ c := fun h => ho (h2.mpr h)
      simp only [ho, if_false, Reply.isOk]
      refine ⟨⟨fun _ => by omega, fun _ => trivial⟩, fun _ => trivial, fun h => by simp at h⟩

/-- Witness for C1: the admin moves a phase-2 document to phase 3. -/
theorem setPhase_integer_target_witness :
    ((setPhase zeroDraws { defaults with phase := 2 } adminSession
        (some (.num ((3 : ℤ) : ℚ)))).1.isOk = true ↔ ((1 : ℤ) ≤ 3 ∧ (3 : ℤ) ≤ 4 ∧ (2 : ℤ) < 3)) ∧
    ((setPhase zeroDraws { defaults with phase := 2 } adminSession
        (some (.num ((3 : ℤ) : ℚ)))).1.isOk = true →
      (setPhase zeroDraws { defaults with phase := 2 } adminSession
        (some (.num ((3 : ℤ) : ℚ)))).2.phase = ((3 : ℤ) : ℚ)) ∧
    ((setPhase zeroDraws { defaults with phase := 2 } adminSession
        (some (.num ((3 : ℤ) : ℚ)))).1.isOk = false →
      (setPhase zeroDraws { defaults with phase := 2 } adminSession
        (some (.num ((3 : ℤ) : ℚ)))).2.phase = ((2 : ℤ) : ℚ)) :=
  setPhase_integer_target zeroDraws { defaults with phase := 2 } adminSession 2 3 rfl
    (by simp)

/-- C10: in phase 2 the target `2.5` passes both guards of set-phase, and the stored phase
becomes `2.5`, which is not one of `1, 2, 3, 4`; the resulting document is reachable. -/
theorem setPhase_accepts_fractional_target :
    (setPhase zeroDraws { defaults with phase := 2 } adminSession
        (some (.num (5 / 2)))).1.isOk = true ∧
    (setPhase zeroDraws { defaults with phase := 2 } adminSession
        (some (.num (5 / 2)))).2.phase = 5 / 2 ∧
    (∃ data, Reachable asciiBuiltins data ∧ data.phase = 5 / 2) := by
  have hstep : (setPhase zeroDraws defaults adminSession (some (.num (5 / 2)))).2.phase
      = 5 / 2 := by
    simp only [setPhase, adminSession, defaults]
    norm_num
  refine ⟨?_, ?_, ?_⟩
  · simp only [setPhase, adminSession, defaults]
    norm_num [Reply.isOk]
  · simp only [setPhase, adminSession, defaults]
    norm_num
  · exact ⟨_, Reachable.step Reachable.init adminSession (.setPhase (some (.num (5 / 2))) zeroDraws),
      by simpa [step] using hstep⟩

/-- C8: a successful set-phase leaves the users and the guesses alone, the sentence list
afterwards is a rearrangement of the list before (same length, same entries), and it is the
identical list unless the stored phase was below 3 and the new phase is 3 or more; this
holds for every outcome of the random draws. -/
theorem setPhase_success_frame (draws : Draws) (data : GameState) (sess : Session)
    (phase : Option Json) (hok : (setPhase draws data sess phase).1.isOk = true) :
    (setPhase draws data sess phase).2.users = data.users ∧
    (setPhase draws data sess phase).2.guesses = data.guesses ∧
    (setPhase draws data sess phase).2.sentences.Perm data.sentences ∧
    (setPhase draws data sess phase).2.sentences.length = data.sentences.length ∧
    (¬ (data.phase < 3 ∧ 3 ≤ (setPhase draws data sess phase).2.phase) →
      (setPhase draws data sess phase).2.sentences = data.sentences) := by
  have hfr := setPhase_users_guesses draws data sess phase
  rcases setPhase_cases draws data sess phase with ⟨hfail, _⟩ | ⟨p, _, _, _, _, _, _, hst⟩
  · rw [hfail] at hok; exact absurd hok (by simp)
  · have hperm : (setPhase draws data sess phase).2.sentences.Perm data.sentences := by
      rw [hst]
      dsimp only
      split_ifs
      · exact shuffle_perm draws data.sentences
      · exact List.Perm.refl _
    refine ⟨hfr.1, hfr.2, hperm, hperm.length_eq, ?_⟩
    rw [hst]
    dsimp only
    intro hno
    split_ifs with hc
    · exact absurd ⟨hc.2, hc.1⟩ hno
    · rfl

/-- Witness for C8: the transition from phase 2 to phase 3 with two stored sentences. -/
theorem setPhase_success_frame_witness :
    (setPhase zeroDraws { defaults with phase := 2, sentences := [⟨"a", "S"⟩, ⟨"b", "T"⟩] }
        adminSession (some (.num 3))).1.isOk = true ∧
    (setPhase zeroDraws { defaults with phase := 2, sentences := [⟨"a", "S"⟩, ⟨"b", "T"⟩] }
        adminSession (some (.num 3))).2.sentences.Perm [⟨"a", "S"⟩, ⟨"b", "T"⟩] :=
  have hok : (setPhase zeroDraws
      { defaults with phase := 2, sentences := [⟨"a", "S"⟩, ⟨"b", "T"⟩] }
      adminSession (some (.num 3))).1.isOk = true := by
    simp only [setPhase, adminSession, defaults]
    norm_num [Reply.isOk]
  ⟨hok, (setPhase_success_frame zeroDraws _ adminSession (some (.num 3)) hok).2.2.1⟩

/-- C9: no request other than reset lowers the stored phase, and the stored phase changes
only when the request is a set-phase that succeeds. -/
theorem phase_only_increases (env : Builtins) (data : GameState) (sess : Session) (op : Op)
    (hop : op.isReset = false) :
    data.phase ≤ (step env data sess op).2.phase ∧
    ((step env data sess op).2.phase ≠ data.phase →
      op.isSetPhase = true ∧ (step env data sess op).1 = true) := by
  cases op with
  | register username displayName password =>
    have h := (register_frame env data username displayName password).1
    exact ⟨le_of_eq h.symm, fun hne => absurd h hne⟩
  | login username password =>
    have h := login_state env data username password
    simp only [step, h]
    exact ⟨le_refl _, fun hne => absurd rfl hne⟩
  | submitSentence text =>
    have h := (submitSentence_frame data sess text).1
    exact ⟨le_of_eq h.symm, fun hne => absurd h hne⟩
  | sentences =>
    have h := sentencesListing_state env data sess
    simp only [step, h]
    exact ⟨le_refl _, fun hne => absurd rfl hne⟩
  | submitGuesses guessMap =>
    have h := (submitGuesses_frame data sess guessMap).1
    exact ⟨le_of_eq h.symm, fun hne => absurd h hne⟩
  | results =>
    have h := results_state data sess
    simp only [step, h]
    exact ⟨le_refl _, fun hne => absurd rfl hne⟩
  | setPhase phase draws =>
    simp only [step, Op.isSetPhase]
    rcases setPhase_cases draws data sess phase with ⟨_, hst⟩ | ⟨p, _, _, _, _, hlt, hrep, hst⟩
    · rw [hst]
      exact ⟨le_refl _, fun hne => absurd rfl hne⟩
    · rw [hst, hrep]
      exact ⟨le_of_lt hlt, fun _ => ⟨trivial, rfl⟩⟩
  | reset => simp [Op.isReset] at hop

/-- Witness for C9: a set-phase request from phase 1 to phase 2. -/
theorem phase_only_increases_witness :
    (Op.setPhase (some (.num 2)) zeroDraws).isReset = false ∧
    defaults.phase ≤
      (step asciiBuiltins defaults adminSession (.setPhase (some (.num 2)) zeroDraws)).2.phase :=
  ⟨rfl, (phase_only_increases asciiBuiltins defaults adminSession
    (.setPhase (some (.num 2)) zeroDraws) rfl).1⟩

/-- C2: once the stored phase is 3 or more, no request other than reset changes the stored
sentence list; in particular a later set-phase does not shuffle again. -/
theorem sentences_fixed_from_phase_three (env : Builtins) (data : GameState) (sess : Session)
    (op : Op) (hphase : 3 ≤ data.phase) (hop : op.isReset = false) :
    (step env data sess op).2.sentences = data.sentences := by
  cases op with
  | register username displayName password =>
    exact (register_frame env data username displayName password).2.1
  | login username password =>
    simp only [step, login_state env data username password]
  | submitSentence text =>
    have hne : data.phase ≠ 2 := by
      intro h; rw [h] at hphase; norm_num at hphase
    simp only [step, (submitSentence_closed data sess text hne).2]
  | sentences =>
    simp only [step, sentencesListing_state env data sess]
  | submitGuesses guessMap =>
    exact (submitGuesses_frame data sess guessMap).2.2
  | results =>
    simp only [step, results_state data sess]
  | setPhase phase draws =>
    simp only [step]
    rcases setPhase_cases draws data sess phase with ⟨_, hst⟩ | ⟨p, _, _, _, _, _, _, hst⟩
    · rw [hst]
    · rw [hst]
      dsimp only
      split_ifs with hc
      · exact absurd hc.2 (not_lt.mpr hphase)
      · rfl
  | reset => simp [Op.isReset] at hop

/-- Witness for C2: the transition from phase 3 to phase 4 keeps the stored order. -/
theorem sentences_fixed_from_phase_three_witness :
    (step asciiBuiltins { defaults with phase := 3, sentences := [⟨"b", "T"⟩, ⟨"a", "S"⟩] }
      adminSession (.setPhase (some (.num 4)) zeroDraws)).2.sentences
      = [⟨"b", "T"⟩, ⟨"a", "S"⟩] :=
  sentences_fixed_from_phase_three asciiBuiltins
    { defaults with phase := 3, sentences := [⟨"b", "T"⟩, ⟨"a", "S"⟩] }
    adminSession (.setPhase (some (.num 4)) zeroDraws) (le_refl _) rfl

/-! ## The sort of `Array.prototype.sort` -/

theorem sortBy_perm {α : Type} (before : α → α → Bool) (l : List α) :
    (sortBy before l).Perm l :=
  List.perm_insertionSort _ l

theorem sortBy_sorted {α : Type} (before : α → α → Bool) (l : List α)
    (htotal : ∀ a b, before a b = true ∨ before b a = true)
    (htrans : ∀ a b c, before a b = true → before b c = true → before a c = true) :
    (sortBy before l).Pairwise (fun a b => before a b = true) := by
  haveI : IsTotal α (fun a b => before a b = true) := ⟨htotal⟩
  haveI : IsTrans α (fun a b => before a b = true) := ⟨htrans⟩
  exact List.sorted_insertionSort (fun a b => before a b = true) l

/-- The sort is stable: a class of elements that the comparator ties keeps its order. -/
theorem sortBy_filter_stable {α : Type} (before : α → α → Bool) (p : α → Bool)
    (htie : ∀ a b, p a = true → p b = true → before a b = true) (l : List α) :
    (sortBy before l).filter p = l.filter p := by
  unfold sortBy
  induction l with
  | nil => rfl
  | cons a l ih =>
    rw [List.insertionSort_cons_eq_take_drop, List.filter_append, List.filter_cons]
    have hsplit : List.filter p (List.insertionSort (fun a b => before a b = true) l) =
        List.filter p (List.takeWhile (fun b => decide ¬before a b = true)
          (List.insertionSort (fun a b => before a b = true) l)) ++
        List.filter p (List.dropWhile (fun b => decide ¬before a b = true)
          (List.insertionSort (fun a b => before a b = true) l)) := by
      rw [← List.filter_append, List.takeWhile_append_dropWhile]
    by_cases hpa : p a = true
    · have hnil : List.filter p (List.takeWhile (fun b => decide ¬before a b = true)
          (List.insertionSort (fun a b => before a b = true) l)) = [] := by
        rw [List.filter_eq_nil_iff]
        intro b hb hpb
        have hnb := List.mem_takeWhile_imp hb
        have := htie a b hpa hpb
        simp [this] at hnb
      rw [hnil] at hsplit ⊢
      rw [if_pos hpa, List.filter_cons, if_pos hpa, ← ih, hsplit]
      rfl
    · rw [if_neg hpa, List.filter_cons, if_neg hpa, ← ih, hsplit]

/-! ## The results payload -/

/-- In phase 4 (or later) a logged-in request to results is answered with the payload. -/
theorem results_ok (data : GameState) (sess : Session) (me : String)
    (hu : loggedIn sess = some me) (hp : 4 ≤ data.phase) :
    ∃ myScore, (results data sess).1 = .ok
      { scoreboard := sortBy (fun a b => decide ((b.score : Int) - (a.score : Int) ≤ 0))
          (data.users.map (scoreRow data (buildAnswerKey data.sentences)))
        totalPossible := (data.sentences.length : Int) - 1
        myScore := myScore
        answerKey := data.sentences.map (fun s =>
          { displayName := displayNameOf data.users s.username, sentence := s.text }) } := by
  unfold results
  rw [hu]
  dsimp only
  rw [if_neg (not_lt.mpr hp)]
  exact ⟨_, rfl⟩

theorem find?_first {α : Type} (p : α → Bool) (l : List α) (j : Nat) (hj : j < l.length)
    (hp : p l[j] = true) (hfirst : ∀ i, ∀ hi : i < l.length, i < j → p l[i] = false) :
    l.find? p = some l[j] := by
  induction l generalizing j with
  | nil => simp at hj
  | cons a l ih =>
    cases j with
    | zero =>
      have hpa : p a = true := by simpa using hp
      simp [List.find?_cons, hpa]
    | succ j =>
      have hpa : p a = false := by
        have := hfirst 0 (by simp) (Nat.succ_pos j)
        simpa using this
      have hj2 : j < l.length := by simpa using hj
      have hrec := ih j hj2 (by simpa using hp) (fun i hi hij => by
        have := hfirst (i + 1) (by simpa using hi) (Nat.succ_lt_succ hij)
        simpa using this)
      simp [List.find?_cons, hpa, hrec]

theorem displayNameOf_first (users : List User) (name : String) (j : Nat)
    (hj : j < users.length) (hname : users[j].username = name)
    (hfirst : ∀ i, ∀ hi : i < users.length, i < j → users[i].username ≠ name) :
    displayNameOf users name = users[j].displayName := by
  have hfind := find?_first (fun u : User => u.username == name) users j hj
    (by simpa using hname) (fun i hi hij => by simpa using hfirst i hi hij)
  simp [displayNameOf, hfind]

theorem displayNameOf_unknown (users : List User) (name : String)
    (h : ∀ u ∈ users, u.username ≠ name) : displayNameOf users name = name := by
  have hfind : users.find? (fun u => u.username == name) = none := by
    rw [List.find?_eq_none]
    intro u hu
    simpa using h u hu
  simp [displayNameOf, hfind]

/-- C18: in phase 4 the answer key of results has one row per stored sentence entry, in
stored order: row `i` carries the text of entry `i`, and its displayName is the displayName
of the (first) user whose username is the entry's username, or the username itself when no
user has it. -/
theorem results_answerKey (data : GameState) (sess : Session) (me : String)
    (hu : loggedIn sess = some me) (hp : 4 ≤ data.phase) :
    ∃ payload, (results data sess).1 = .ok payload ∧
      payload.answerKey.length = data.sentences.length ∧
      ∀ i, ∀ hi : i < data.sentences.length,
        ∃ row, payload.answerKey[i]? = some row ∧
          row.sentence = data.sentences[i].text ∧
          (∀ j, ∀ hj : j < data.users.length,
            data.users[j].username = data.sentences[i].username →
            (∀ k, ∀ hk : k < data.users.length, k < j →
              data.users[k].username ≠ data.sentences[i].username) →
            row.displayName = data.users[j].displayName) ∧
          ((∀ u ∈ data.users, u.username ≠ data.sentences[i].username) →
            row.displayName = data.sentences[i].username) := by
  obtain ⟨myScore, hres⟩ := results_ok data sess me hu hp
  refine ⟨_, hres, by simp, ?_⟩
  intro i hi
  refine ⟨{ displayName := displayNameOf data.users data.sentences[i].username,
            sentence := data.sentences[i].text }, ?_, rfl, ?_, ?_⟩
  · simp [List.getElem?_map, List.getElem?_eq_getElem hi]
  · intro j hj hname hfirst
    exact displayNameOf_first data.users _ j hj hname hfirst
  · intro hnone
    exact displayNameOf_unknown data.users _ hnone

/-- Witness for C18: one sentence whose author is registered. -/
theorem results_answerKey_witness :
    loggedIn (studentSession "a") = some "a" ∧
    ∃ payload, (results
        { phase := 4, users := [⟨"a", "Ann", .str "pw"⟩], sentences := [⟨"a", "S_A"⟩],
          guesses := [] } (studentSession "a")).1 = .ok payload ∧
      payload.answerKey.length = 1 :=
  ⟨rfl, by
    obtain ⟨payload, h1, h2, _⟩ := results_answerKey
      { phase := 4, users := [⟨"a", "Ann", .str "pw"⟩], sentences := [⟨"a", "S_A"⟩],
        guesses := [] } (studentSession "a") "a" rfl (le_refl _)
    exact ⟨payload, h1, h2⟩⟩

/-- C13: in phase 4 the scoreboard of results is a rearrangement of the rows computed for
the registered users in registration order, each row carrying the username and displayName
of its user and the user's score; the scores are in non-increasing order; and the rows of
any one score appear in the order of their users in the registration list. -/
theorem results_scoreboard (data : GameState) (sess : Session) (me : String)
    (hu : loggedIn sess = some me) (hp : 4 ≤ data.phase) :
    ∃ payload, (results data sess).1 = .ok payload ∧
      payload.scoreboard.Perm
        (data.users.map (scoreRow data (buildAnswerKey data.sentences))) ∧
      payload.scoreboard.length = data.users.length ∧
      (∀ user, (scoreRow data (buildAnswerKey data.sentences) user).username = user.username ∧
        (scoreRow data (buildAnswerKey data.sentences) user).displayName = user.displayName) ∧
      payload.scoreboard.Pairwise (fun a b => b.score ≤ a.score) ∧
      ∀ k : Nat, payload.scoreboard.filter (fun row => row.score == k) =
        (data.users.map (scoreRow data (buildAnswerKey data.sentences))).filter
          (fun row => row.score == k) := by
  obtain ⟨myScore, hres⟩ := results_ok data sess me hu hp
  refine ⟨_, hres, sortBy_perm _ _, ?_, fun user => ⟨rfl, rfl⟩, ?_, ?_⟩
  · have := (sortBy_perm (fun a b : ScoreRow => decide ((b.score : Int) - (a.score : Int) ≤ 0))
      (data.users.map (scoreRow data (buildAnswerKey data.sentences)))).length_eq
    simpa using this
  · have hs := sortBy_sorted (fun a b : ScoreRow => decide ((b.score : Int) - (a.score : Int) ≤ 0))
      (data.users.map (scoreRow data (buildAnswerKey data.sentences)))
      (fun a b => by simp only [decide_eq_true_eq]; omega)
      (fun a b c => by simp only [decide_eq_true_eq]; omega)
    exact hs.imp (fun {a b} h => by simp only [decide_eq_true_eq] at h; omega)
  · intro k
    exact sortBy_filter_stable _ _ (fun a b ha hb => by
      simp only [beq_iff_eq] at ha hb
      simp only [decide_eq_true_eq]
      omega) _

/-- Witness for C13: two users without guesses keep their registration order. -/
theorem results_scoreboard_witness :
    loggedIn (studentSession "a") = some "a" ∧
    ∃ payload, (results
        { phase := 4, users := [⟨"a", "Ann", .str "pw"⟩, ⟨"b", "Bob", .str "pw"⟩],
          sentences := [], guesses := [] } (studentSession "a")).1 = .ok payload ∧
      payload.scoreboard.length = 2 :=
  ⟨rfl, by
    obtain ⟨payload, h1, _, h2, _⟩ := results_scoreboard
      { phase := 4, users := [⟨"a", "Ann", .str "pw"⟩, ⟨"b", "Bob", .str "pw"⟩],
        sentences := [], guesses := [] } (studentSession "a") "a" rfl (le_refl _)
    exact ⟨payload, h1, h2⟩⟩

/-! ## totalPossible -/

/-- With at most one sentence per username and pairwise distinct property names in the
guess map, the score of a user is at most the number of stored sentences of other users. -/
theorem scoreRow_bound (data : GameState)
    (hnd : (data.sentences.map (fun x => x.username)).Nodup)
    (hkeys : ∀ g ∈ data.guesses, ((objectEntries g.guessMap).map Prod.fst).Nodup)
    (user : User) :
    (scoreRow data (buildAnswerKey data.sentences) user).score ≤
      ((data.sentences.map (fun x => x.username)).erase user.username).length := by
  rw [scoreRow_score data hnd user]
  split
  · rename_i guessEntry hfind
    have hmem : guessEntry ∈ data.guesses := List.mem_of_find?_eq_some hfind
    rw [List.countP_eq_length_filter, ← List.length_map _ Prod.fst]
    apply List.Subperm.length_le
    apply List.subperm_of_subset
    · exact List.Nodup.sublist ((List.filter_sublist _).map Prod.fst) (hkeys guessEntry hmem)
    · intro k hk
      obtain ⟨kv, hkv, hkeq⟩ := List.mem_map.mp hk
      have hP := (List.mem_filter.mp hkv).2
      simp only [Bool.and_eq_true, Bool.not_eq_true', beq_eq_false_iff_ne, ne_eq,
        List.any_eq_true, beq_iff_eq] at hP
      obtain ⟨⟨hne, _⟩, x, hx, hxk, _⟩ := hP
      rw [← hkeq]
      rw [List.Nodup.mem_erase_iff hnd]
      exact ⟨hne, List.mem_map.mpr ⟨x, hx, hxk⟩⟩
  · exact Nat.zero_le _

/-- C12 (as amended): in phase 4, with at most one sentence entry per username and pairwise
distinct property names in each stored guess map, results answers with
`totalPossible = count(sentences) - 1`; every scoreboard row has a score of at most
`count(sentences)`, and the row of a user who has a sentence entry has a score of at most
`totalPossible`. -/
theorem results_totalPossible (data : GameState) (sess : Session) (me : String)
    (hu : loggedIn sess = some me) (hp : 4 ≤ data.phase)
    (hnd : (data.sentences.map (fun x => x.username)).Nodup)
    (hkeys : ∀ g ∈ data.guesses, ((objectEntries g.guessMap).map Prod.fst).Nodup) :
    ∃ payload, (results data sess).1 = .ok payload ∧
      payload.totalPossible = (data.sentences.length : Int) - 1 ∧
      ∀ row ∈ payload.scoreboard,
        (row.score : Int) ≤ (data.sentences.length : Int) ∧
        ((∃ x ∈ data.sentences, x.username = row.username) →
          (row.score : Int) ≤ payload.totalPossible) := by
  obtain ⟨myScore, hres⟩ := results_ok data sess me hu hp
  refine ⟨_, hres, rfl, ?_⟩
  intro row hrow
  obtain ⟨user, _, hrowe⟩ := (results_scoreboard_mem data sess _ hres row).mp hrow
  have hb := scoreRow_bound data hnd hkeys user
  have hlen := List.length_erase user.username (data.sentences.map (fun x => x.username))
  rw [hrowe]
  constructor
  · have : ((data.sentences.map (fun x => x.username)).erase user.username).length
        ≤ data.sentences.length := by
      rw [hlen]; split_ifs <;> simp
    exact_mod_cast le_trans hb this
  · rintro ⟨x, hx, hxu⟩
    have hin : user.username ∈ data.sentences.map (fun x => x.username) :=
      List.mem_map.mpr ⟨x, hx, hxu⟩
    have hpos : 0 < data.sentences.length := List.length_pos_of_mem hx
    rw [if_pos hin, List.length_map] at hlen
    have h1 : (scoreRow data (buildAnswerKey data.sentences) user).score
        ≤ data.sentences.length - 1 := by rw [← hlen]; exact hb
    dsimp only
    omega

/-- Witness for C12: the three-student example of the specification. -/
theorem results_totalPossible_witness :
    loggedIn (studentSession "a") = some "a" ∧
    ∃ payload, (results
        { phase := 4,
          users := [⟨"a", "A", .str "pw"⟩, ⟨"b", "B", .str "pw"⟩, ⟨"c", "C", .str "pw"⟩],
          sentences := [⟨"a", "S_A"⟩, ⟨"b", "S_B"⟩, ⟨"c", "S_C"⟩],
          guesses := [⟨"a", .obj [("b", .str "S_B"), ("c", .str "S_X")]⟩] }
        (studentSession "a")).1 = .ok payload ∧
      payload.totalPossible = 2 :=
  ⟨rfl, by
    obtain ⟨payload, h1, h2, _⟩ := results_totalPossible
      { phase := 4,
        users := [⟨"a", "A", .str "pw"⟩, ⟨"b", "B", .str "pw"⟩, ⟨"c", "C", .str "pw"⟩],
        sentences := [⟨"a", "S_A"⟩, ⟨"b", "S_B"⟩, ⟨"c", "S_C"⟩],
        guesses := [⟨"a", .obj [("b", .str "S_B"), ("c", .str "S_X")]⟩] }
      (studentSession "a") "a" rfl (le_refl _) (by decide)
      (by
        intro g hg
        have hg2 := List.mem_singleton.mp hg
        subst hg2
        decide)
    exact ⟨payload, h1, by rw [h2]; rfl⟩⟩

/-- Counterexample for C12 as stated: users `a` and `b` are registered, only `b` has a
sentence, and `a` guesses it; usernames, sentence authors and guessers are unique, results
reports `totalPossible = 0`, and the scoreboard row of `a` has score 1. -/
theorem results_score_exceeds_totalPossible :
    ∃ payload, (results
        { phase := 4,
          users := [⟨"a", "A", .str "pw"⟩, ⟨"b", "B", .str "pw"⟩],
          sentences := [⟨"b", "S_B"⟩],
          guesses := [⟨"a", .obj [("b", .str "S_B")]⟩] }
        (studentSession "a")).1 = .ok payload ∧
      payload.totalPossible = 0 ∧
      (⟨"a", "A", 1⟩ : ScoreRow) ∈ payload.scoreboard := by
  obtain ⟨myScore, hres⟩ := results_ok
    { phase := 4,
      users := [⟨"a", "A", .str "pw"⟩, ⟨"b", "B", .str "pw"⟩],
      sentences := [⟨"b", "S_B"⟩],
      guesses := [⟨"a", .obj [("b", .str "S_B")]⟩] }
    (studentSession "a") "a" rfl (le_refl _)
  refine ⟨_, hres, by simp, ?_⟩
  rw [results_scoreboard_mem _ _ _ hres]
  exact ⟨⟨"a", "A", .str "pw"⟩, by simp, by decide⟩

/-! ## The sentences listing -/

theorem compareCodePoints_cons_le (x y : Char) (as bs : List Char) :
    compareCodePoints (x :: as) (y :: bs) ≤ 0 ↔
      x.toNat < y.toNat ∨ (x.toNat = y.toNat ∧ compareCodePoints as bs ≤ 0) := by
  have hdef : compareCodePoints (x :: as) (y :: bs) =
      if x.toNat < y.toNat then -1
      else if y.toNat < x.toNat then 1
      else compareCodePoints as bs := by
    simp only [compareCodePoints]
  rw [hdef]
  split_ifs with h1 h2
  · exact ⟨fun _ => Or.inl h1, fun _ => by decide⟩
  · constructor
    · intro h; exact absurd h (by decide)
    · rintro (h | ⟨h, _⟩)
      · exact absurd h h1
      · omega
  · constructor
    · intro h; exact Or.inr ⟨by omega, h⟩
    · rintro (h | ⟨_, h⟩)
      · exact absurd h h1
      · exact h

theorem compareCodePoints_total (a b : List Char) :
    compareCodePoints a b ≤ 0 ∨ compareCodePoints b a ≤ 0 := by
  induction a generalizing b with
  | nil => cases b <;> simp [compareCodePoints]
  | cons x as ih =>
    cases b with
    | nil => simp [compareCodePoints]
    | cons y bs =>
      rw [compareCodePoints_cons_le, compareCodePoints_cons_le]
      rcases ih bs with h | h
      · rcases Nat.lt_trichotomy x.toNat y.toNat with h1 | h1 | h1
        · exact Or.inl (Or.inl h1)
        · exact Or.inl (Or.inr ⟨h1, h⟩)
        · exact Or.inr (Or.inl h1)
      · rcases Nat.lt_trichotomy x.toNat y.toNat with h1 | h1 | h1
        · exact Or.inl (Or.inl h1)
        · exact Or.inr (Or.inr ⟨h1.symm, h⟩)
        · exact Or.inr (Or.inl h1)

theorem compareCodePoints_trans (a b c : List Char)
    (hab : compareCodePoints a b ≤ 0) (hbc : compareCodePoints b c ≤ 0) :
    compareCodePoints a c ≤ 0 := by
  induction a generalizing b c with
  | nil => cases c <;> simp [compareCodePoints]
  | cons x as ih =>
    cases b with
    | nil => simp [compareCodePoints] at hab
    | cons y bs =>
      cases c with
      | nil => simp [compareCodePoints] at hbc
      | cons z cs =>
        rw [compareCodePoints_cons_le] at hab hbc ⊢
        rcases hab with h1 | ⟨h1, h1r⟩
        · rcases hbc with h2 | ⟨h2, _⟩
          · exact Or.inl (by omega)
          · exact Or.inl (by omega)
        · rcases hbc with h2 | ⟨h2, h2r⟩
          · exact Or.inl (by omega)
          · exact Or.inr ⟨by omega, ih bs cs h1r h2r⟩

/-- From phase 3 on a logged-in request to the sentences listing is answered with the
stored texts and the sorted students. -/
theorem sentencesListing_ok (env : Builtins) (data : GameState) (sess : Session) (me : String)
    (hu : loggedIn sess = some me) (hp : 3 ≤ data.phase) :
    (sentencesListing env data sess).1 = .ok
      { sentences := data.sentences.map (fun s => s.text)
        students := sortBy
          (fun a b => decide (env.localeCompare a.displayName b.displayName ≤ 0))
          (data.sentences.map (fun s =>
            { username := s.username, displayName := displayNameOf data.users s.username })) } := by
  unfold sentencesListing
  rw [hu]
  dsimp only
  rw [if_neg (not_lt.mpr hp)]

/-- C19 (as amended): from phase 3 on, for a displayName comparison that is total and
transitive, the listing returns the stored texts in stored order and a students list that
has one `(username, displayName)` entry per sentence entry and is sorted ascending by
displayName; the students whose displayNames tie with any given name keep their stored
order; and for every other state of phase 3 or more with the same users whose sentence
list is a rearrangement, the students list is the same, provided no two sentence entries
with different usernames tie in the comparison of their displayNames. -/
theorem sentencesListing_spec (env : Builtins) (data : GameState) (sess : Session)
    (me : String) (hu : loggedIn sess = some me) (hp : 3 ≤ data.phase)
    (htotal : ∀ a b, env.localeCompare a b ≤ 0 ∨ env.localeCompare b a ≤ 0)
    (htrans : ∀ a b c, env.localeCompare a b ≤ 0 → env.localeCompare b c ≤ 0 →
      env.localeCompare a c ≤ 0) :
    ∃ payload, (sentencesListing env data sess).1 = .ok payload ∧
      payload.sentences = data.sentences.map (fun s => s.text) ∧
      payload.students.Perm (data.sentences.map (fun s =>
        { username := s.username, displayName := displayNameOf data.users s.username })) ∧
      payload.students.Pairwise
        (fun a b => env.localeCompare a.displayName b.displayName ≤ 0) ∧
      (∀ d : String,
        payload.students.filter (fun st =>
          decide (env.localeCompare st.displayName d ≤ 0) &&
          decide (env.localeCompare d st.displayName ≤ 0)) =
        (data.sentences.map (fun s =>
          ({ username := s.username,
             displayName := displayNameOf data.users s.username } : Student))).filter
          (fun st =>
            decide (env.localeCompare st.displayName d ≤ 0) &&
            decide (env.localeCompare d st.displayName ≤ 0))) ∧
      ∀ (data2 : GameState) (sess2 : Session) (me2 : String),
        loggedIn sess2 = some me2 → 3 ≤ data2.phase → data2.users = data.users →
        data2.sentences.Perm data.sentences →
        (∀ x ∈ data.sentences, ∀ y ∈ data.sentences,
          env.localeCompare (displayNameOf data.users x.username)
            (displayNameOf data.users y.username) ≤ 0 →
          env.localeCompare (displayNameOf data.users y.username)
            (displayNameOf data.users x.username) ≤ 0 → x.username = y.username) →
        ∃ payload2, (sentencesListing env data2 sess2).1 = .ok payload2 ∧
          payload2.students = payload.students := by
  have hsorted : ∀ l : List Student,
      (sortBy (fun a b => decide (env.localeCompare a.displayName b.displayName ≤ 0)) l).Pairwise
        (fun a b => env.localeCompare a.displayName b.displayName ≤ 0) := by
    intro l
    have hs := sortBy_sorted
      (fun a b : Student => decide (env.localeCompare a.displayName b.displayName ≤ 0)) l
      (fun a b => by simpa using htotal a.displayName b.displayName)
      (fun a b c h1 h2 => by
        simp only [decide_eq_true_eq] at h1 h2 ⊢
        exact htrans _ _ _ h1 h2)
    exact hs.imp (fun {a b} h => by simpa using h)
  refine ⟨_, sentencesListing_ok env data sess me hu hp, rfl, sortBy_perm _ _, hsorted _,
    ?_, ?_⟩
  · intro d
    exact sortBy_filter_stable _ _ (fun a b ha hb => by
      simp only [Bool.and_eq_true, decide_eq_true_eq] at ha hb ⊢
      exact htrans _ _ _ ha.1 hb.2) _
  intro data2 sess2 me2 hu2 hp2 husers hperm hties
  refine ⟨_, sentencesListing_ok env data2 sess2 me2 hu2 hp2, ?_⟩
  dsimp only
  rw [husers]
  have hmapperm : (data2.sentences.map (fun s : SentenceEntry =>
      ({ username := s.username, displayName := displayNameOf data.users s.username } : Student))).Perm
      (data.sentences.map (fun s : SentenceEntry =>
      ({ username := s.username, displayName := displayNameOf data.users s.username } : Student))) :=
    hperm.map _
  apply List.Perm.eq_of_sorted _ (hsorted _) (hsorted _)
    ((sortBy_perm _ _).trans (hmapperm.trans (sortBy_perm _ _).symm))
  intro a b ha hb hab hba
  have ha2 := hmapperm.subset ((sortBy_perm _ _).subset ha)
  have hb2 := (sortBy_perm _ _).subset hb
  obtain ⟨x, hx, hxa⟩ := List.mem_map.mp ha2
  obtain ⟨y, hy, hyb⟩ := List.mem_map.mp hb2
  subst hxa
  subst hyb
  have hxy := hties x hx y hy hab hba
  simp only [hxy]

/-- Witness for C19: two students with different displayNames, listed in either stored
order. -/
theorem sentencesListing_spec_witness :
    loggedIn (studentSession "a") = some "a" ∧
    ∃ payload, (sentencesListing asciiBuiltins
        { phase := 3, users := [⟨"a", "Ann", .str "pw"⟩, ⟨"b", "Bob", .str "pw"⟩],
          sentences := [⟨"b", "S_B"⟩, ⟨"a", "S_A"⟩], guesses := [] }
        (studentSession "a")).1 = .ok payload ∧
      payload.sentences = ["S_B", "S_A"] :=
  ⟨rfl, by
    obtain ⟨payload, h1, h2, _⟩ := sentencesListing_spec asciiBuiltins
      { phase := 3, users := [⟨"a", "Ann", .str "pw"⟩, ⟨"b", "Bob", .str "pw"⟩],
        sentences := [⟨"b", "S_B"⟩, ⟨"a", "S_A"⟩], guesses := [] }
      (studentSession "a") "a" rfl (le_refl _)
      (fun a b => compareCodePoints_total a.data b.data)
      (fun a b c => compareCodePoints_trans a.data b.data c.data)
    exact ⟨payload, h1, h2⟩⟩

/-- Counterexample for C19 as stated: two phase-3 states with the same users, both with
displayName `X`, whose sentence lists are rearrangements of each other; the comparison of
the displayNames ties, the sort keeps the stored order, and the two students lists differ. -/
theorem sentencesListing_ties_keep_stored_order :
    ∃ payload1 payload2,
      (sentencesListing asciiBuiltins
        { phase := 3, users := [⟨"a", "X", .str "pw"⟩, ⟨"b", "X", .str "pw"⟩],
          sentences := [⟨"a", "S_A"⟩, ⟨"b", "S_B"⟩], guesses := [] }
        (studentSession "a")).1 = .ok payload1 ∧
      (sentencesListing asciiBuiltins
        { phase := 3, users := [⟨"a", "X", .str "pw"⟩, ⟨"b", "X", .str "pw"⟩],
          sentences := [⟨"b", "S_B"⟩, ⟨"a", "S_A"⟩], guesses := [] }
        (studentSession "a")).1 = .ok payload2 ∧
      List.Perm ([⟨"b", "S_B"⟩, ⟨"a", "S_A"⟩] : List SentenceEntry)
        [⟨"a", "S_A"⟩, ⟨"b", "S_B"⟩] ∧
      payload1.students = [⟨"a", "X"⟩, ⟨"b", "X"⟩] ∧
      payload2.students = [⟨"b", "X"⟩, ⟨"a", "X"⟩] := by
  refine ⟨_, _, sentencesListing_ok asciiBuiltins _ (studentSession "a") "a" rfl (le_refl _),
    sentencesListing_ok asciiBuiltins _ (studentSession "a") "a" rfl (le_refl _),
    List.Perm.swap _ _ _, ?_, ?_⟩
  · decide
  · decide

/-! ## Fisher-Yates -/

theorem swap_length {α : Type} (a : List α) (i j : Nat) : (swap a i j).length = a.length := by
  unfold swap
  split <;> simp

theorem swap_getElem?_other {α : Type} (a : List α) (i j m : Nat) (hi : m ≠ i) (hj : m ≠ j) :
    (swap a i j)[m]? = a[m]? := by
  unfold swap
  split
  · rw [List.getElem?_set_ne (Ne.symm hj), List.getElem?_set_ne (Ne.symm hi)]
  · rfl

theorem swap_getElem?_left {α : Type} (a : List α) (i j : Nat) (hi : i < a.length)
    (hj : j < a.length) : (swap a i j)[i]? = a[j]? := by
  unfold swap
  rw [List.getElem?_eq_getElem hi, List.getElem?_eq_getElem hj]
  dsimp only
  by_cases hij : j = i
  · subst hij
    rw [List.getElem?_set_self (by simpa using hj)]
  · rw [List.getElem?_set_ne hij, List.getElem?_set_self hi]

theorem shuffleLoop_length {α : Type} (draws : Draws) (k : Nat) (a : List α) :
    (shuffleLoop draws k a).length = a.length := by
  induction k generalizing a with
  | zero => rfl
  | succ k ih => rw [shuffleLoop, ih, swap_length]

/-- The loop started at index `k` leaves every index above `k` alone. -/
theorem shuffleLoop_getElem?_above {α : Type} (draws : Draws) (k : Nat) (a : List α) (m : Nat)
    (hm : k < m) : (shuffleLoop draws k a)[m]? = a[m]? := by
  induction k generalizing a with
  | zero => rfl
  | succ k ih =>
    rw [shuffleLoop, ih _ (Nat.lt_of_succ_lt hm)]
    have hj : (draws (k + 1)).val < k + 2 := (draws (k + 1)).isLt
    exact swap_getElem?_other a (k + 1) _ m (by omega) (by omega)

/-- The element that ends at index `k + 1` is the one selected at loop index `k + 1`. -/
theorem shuffleLoop_getElem?_top {α : Type} (draws : Draws) (k : Nat) (a : List α)
    (hk : k + 1 < a.length) :
    (shuffleLoop draws (k + 1) a)[k + 1]? = a[(draws (k + 1)).val]? := by
  have hj : (draws (k + 1)).val < k + 2 := (draws (k + 1)).isLt
  rw [shuffleLoop, shuffleLoop_getElem?_above _ _ _ _ (Nat.lt_succ_self k)]
  exact swap_getElem?_left a (k + 1) _ hk (by omega)

/-- The loop started at index `k` reads the draws of the indices `1..k` only. -/
theorem shuffleLoop_congr {α : Type} (d₁ d₂ : Draws) (k : Nat) (a : List α)
    (h : ∀ i, 1 ≤ i → i ≤ k → d₁ i = d₂ i) : shuffleLoop d₁ k a = shuffleLoop d₂ k a := by
  induction k generalizing a with
  | zero => rfl
  | succ k ih =>
    rw [shuffleLoop, shuffleLoop, h (k + 1) (by omega) (Nat.le_refl _)]
    exact ih _ (fun i h1 h2 => h i h1 (by omega))

/-- Different choice sequences give different orders of an array without repetitions. -/
theorem shuffleLoop_injective {α : Type} (d₁ d₂ : Draws) (k : Nat) (a : List α)
    (hnd : a.Nodup) (hk : k < a.length)
    (h : shuffleLoop d₁ k a = shuffleLoop d₂ k a) :
    ∀ i, 1 ≤ i → i ≤ k → d₁ i = d₂ i := by
  classical
  induction k generalizing a with
  | zero => intro i h1 h2; omega
  | succ k ih =>
    have htop : a[(d₁ (k + 1)).val]? = a[(d₂ (k + 1)).val]? := by
      rw [← shuffleLoop_getElem?_top d₁ k a hk, ← shuffleLoop_getElem?_top d₂ k a hk, h]
    have h1lt : (d₁ (k + 1)).val < a.length := by
      have := (d₁ (k + 1)).isLt; omega
    have h2lt : (d₂ (k + 1)).val < a.length := by
      have := (d₂ (k + 1)).isLt; omega
    have hval : (d₁ (k + 1)).val = (d₂ (k + 1)).val := by
      rw [List.getElem?_eq_getElem h1lt, List.getElem?_eq_getElem h2lt] at htop
      exact (List.Nodup.getElem_inj_iff hnd).mp (Option.some.inj htop)
    have heq : d₁ (k + 1) = d₂ (k + 1) := Fin.ext hval
    rw [shuffleLoop, shuffleLoop, ← heq] at h
    have hrec := ih (swap a (k + 1) (d₁ (k + 1)).val)
      ((swap_perm a _ _).nodup_iff.mpr hnd) (by rw [swap_length]; omega) h
    intro i h1 h2
    by_cases hik : i = k + 1
    · subst hik; exact heq
    · exact hrec i h1 (by omega)

/-- Every rearrangement that agrees with the array above index `k` is reached by the loop
started at index `k` for some draws. -/
theorem shuffleLoop_surjective {α : Type} (k : Nat) (a l : List α) (hk : k < a.length)
    (hperm : l.Perm a) (hsame : ∀ m, k < m → l[m]? = a[m]?) :
    ∃ draws : Draws, shuffleLoop draws k a = l := by
  classical
  induction k generalizing a with
  | zero =>
    refine ⟨zeroDraws, ?_⟩
    rw [shuffleLoop]
    cases a with
    | nil => simp at hk
    | cons y at' =>
      cases l with
      | nil => exact absurd hperm.length_eq (by simp)
      | cons x lt =>
        have htail : lt = at' := by
          apply List.ext_getElem?
          intro n
          simpa using hsame (n + 1) (Nat.succ_pos n)
        subst htail
        have hxy : List.Perm ([x] ++ lt) ([y] ++ lt) := hperm
        have := (List.perm_append_right_iff lt).mp hxy
        rw [List.singleton_perm_singleton.mp this]
  | succ k ih =>
    have hlen : l.length = a.length := hperm.length_eq
    have hdrop : l.drop (k + 2) = a.drop (k + 2) := by
      apply List.ext_getElem?
      intro n
      rw [List.getElem?_drop, List.getElem?_drop]
      exact hsame _ (by omega)
    have htake : (l.take (k + 2)).Perm (a.take (k + 2)) := by
      have h1 : List.Perm (l.take (k + 2) ++ a.drop (k + 2))
          (a.take (k + 2) ++ a.drop (k + 2)) := by
        rw [List.take_append_drop (k + 2) a, ← hdrop, List.take_append_drop]
        exact hperm
      exact (List.perm_append_right_iff _).mp h1
    have hkl : k + 1 < l.length := by omega
    have hmem : l[k + 1] ∈ a.take (k + 2) :=
      htake.subset (List.mem_take_iff_getElem.mpr ⟨k + 1, by omega, rfl⟩)
    obtain ⟨j, hj, hjv⟩ := List.mem_take_iff_getElem.mp hmem
    have hjk : j < k + 2 := by omega
    have hja : j < a.length := by omega
    have hrec := ih (swap a (k + 1) j) (by rw [swap_length]; omega)
      (hperm.trans (swap_perm a (k + 1) j).symm)
      (fun m hm => by
        by_cases hmk : m = k + 1
        · subst hmk
          rw [swap_getElem?_left a (k + 1) j hk hja, List.getElem?_eq_getElem hkl,
            List.getElem?_eq_getElem hja, hjv]
        · rw [swap_getElem?_other a (k + 1) j m hmk (by omega)]
          exact hsame m (by omega))
    obtain ⟨d, hd⟩ := hrec
    refine ⟨Function.update d (k + 1) ⟨j, hjk⟩, ?_⟩
    rw [shuffleLoop, Function.update_same]
    rw [shuffleLoop_congr (Function.update d (k + 1) ⟨j, hjk⟩) d k _
      (fun i _ h2 => Function.update_noteq (by omega) _ _)]
    exact hd

theorem card_choices (n : Nat) : Fintype.card (Choices n) = n.factorial := by
  rw [Fintype.card_pi]
  simp only [Fintype.card_fin]
  rw [Fin.prod_univ_eq_prod_range (fun i => i + 1) n]
  exact Finset.prod_range_add_one_eq_factorial n

theorem toDraws_of_lt {n : Nat} (c : Choices n) (i : Nat) (h : i < n) :
    c.toDraws i = c ⟨i, h⟩ := by
  simp [Choices.toDraws, h]

/-- C20: with the random draws given as a choice sequence, shuffle returns a rearrangement
of its input of the same length for every choice sequence; every ordering of the input is
the output of some choice sequence; for an input without repetitions two different choice
sequences give different outputs, so each of the `n!` orderings is produced by exactly one
of the `n!` choice sequences. -/
theorem shuffle_fisher_yates {α : Type} (arr : List α) :
    (∀ draws : Draws,
      (shuffle draws arr).Perm arr ∧ (shuffle draws arr).length = arr.length) ∧
    (∀ l : List α, l.Perm arr → ∃ c : Choices arr.length, shuffle c.toDraws arr = l) ∧
    (arr.Nodup → ∀ c₁ c₂ : Choices arr.length,
      shuffle c₁.toDraws arr = shuffle c₂.toDraws arr → c₁ = c₂) ∧
    Fintype.card (Choices arr.length) = arr.length.factorial ∧
    arr.permutations.length = arr.length.factorial ∧
    (∀ l : List α, l ∈ arr.permutations ↔ l.Perm arr) ∧
    (arr.Nodup → arr.permutations.Nodup) := by
  classical
  refine ⟨fun draws => ⟨shuffle_perm draws arr, (shuffle_perm draws arr).length_eq⟩, ?_, ?_,
    card_choices _, List.length_permutations arr, fun l => List.mem_permutations,
    List.nodup_permutations arr⟩
  · intro l hperm
    by_cases hn : arr.length = 0
    · have harr : arr = [] := List.length_eq_zero.mp hn
      subst harr
      have hl : l = [] := List.perm_nil.mp hperm
      subst hl
      exact ⟨fun i => i.elim0, rfl⟩
    · have hk : arr.length - 1 < arr.length := by omega
      obtain ⟨d, hd⟩ := shuffleLoop_surjective (arr.length - 1) arr l hk hperm
        (fun m hm => by
          rw [List.getElem?_eq_none (by rw [hperm.length_eq]; omega),
            List.getElem?_eq_none (by omega)])
      refine ⟨fun i => d i.val, ?_⟩
      rw [← hd]
      exact shuffleLoop_congr _ _ _ _ (fun i _ h2 => by
        rw [toDraws_of_lt _ i (by omega)])
  · intro hnd c₁ c₂ h
    by_cases hn : arr.length = 0
    · funext i
      exact absurd i.isLt (by omega)
    · have hk : arr.length - 1 < arr.length := by omega
      have hinj := shuffleLoop_injective c₁.toDraws c₂.toDraws (arr.length - 1) arr hnd hk h
      funext i
      by_cases hi : i.val = 0
      · apply Fin.ext
        have h1 := (c₁ i).isLt
        have h2 := (c₂ i).isLt
        omega
      · have := hinj i.val (by omega) (by have := i.isLt; omega)
        rw [toDraws_of_lt c₁ i.val i.isLt, toDraws_of_lt c₂ i.val i.isLt] at this
        exact this

/-- Witness for C20: the three-element array `[1, 2, 3]`. -/
theorem shuffle_fisher_yates_witness :
    ([1, 2, 3] : List Nat).Nodup ∧
    Fintype.card (Choices ([1, 2, 3] : List Nat).length) = 6 ∧
    ([1, 2, 3] : List Nat).permutations.Nodup :=
  ⟨by decide, (shuffle_fisher_yates ([1, 2, 3] : List Nat)).2.2.2.1,
   (shuffle_fisher_yates ([1, 2, 3] : List Nat)).2.2.2.2.2.2 (by decide)⟩

/-! ## Failed requests and reset -/

theorem register_failed (env : Builtins) (data : GameState)
    (username displayName password : Option Json)
    (h : (register env data username displayName password).1.isOk = false) :
    (register env data username displayName password).2 = data := by
  revert h
  unfold register
  split_ifs
  · intro _; rfl
  · intro _; rfl
  · split
    · dsimp only
      split_ifs
      · intro _; rfl
      · split
        · intro h; simp [Reply.isOk] at h
        · intro _; rfl
    · intro _; rfl

theorem submitSentence_failed (data : GameState) (sess : Session) (text : Option Json)
    (h : (submitSentence data sess text).1.isOk = false) :
    (submitSentence data sess text).2 = data := by
  revert h
  unfold submitSentence
  split
  · intro _; rfl
  · split_ifs
    · intro _; rfl
    · intro _; rfl
    · split
      · dsimp only
        split_ifs
        · intro _; rfl
        · split
          · intro h; simp [Reply.isOk] at h
          · intro _; rfl
        · intro h; simp [Reply.isOk] at h
      · intro _; rfl

theorem submitGuesses_failed (data : GameState) (sess : Session) (guessMap : Option Json)
    (h : (submitGuesses data sess guessMap).1.isOk = false) :
    (submitGuesses data sess guessMap).2 = data := by
  revert h
  unfold submitGuesses
  split
  · intro _; rfl
  · split_ifs
    · intro _; rfl
    · dsimp only
      split
      · split_ifs
        · split
          · intro h; simp [Reply.isOk] at h
          · intro _; rfl
        · intro h; simp [Reply.isOk] at h
      · split_ifs
        · split
          · intro h; simp [Reply.isOk] at h
          · intro _; rfl
        · intro h; simp [Reply.isOk] at h
      · intro _; rfl

/-- C15: a request that is answered with an error leaves the stored document as it was, in
all four fields; this holds for register, submit-sentence, submit-guesses, set-phase, the
sentences listing and results (and for login and reset as well). -/
theorem failed_request_keeps_store (env : Builtins) (data : GameState) (sess : Session)
    (op : Op) (hfail : (step env data sess op).1 = false) :
    (step env data sess op).2 = data := by
  cases op with
  | register username displayName password =>
    exact register_failed env data username displayName password hfail
  | login username password => exact login_state env data username password
  | submitSentence text => exact submitSentence_failed data sess text hfail
  | sentences => exact sentencesListing_state env data sess
  | submitGuesses guessMap => exact submitGuesses_failed data sess guessMap hfail
  | results => exact results_state data sess
  | setPhase phase draws =>
    rcases setPhase_cases draws data sess phase with ⟨_, hst⟩ | ⟨p, _, _, _, _, _, hrep, _⟩
    · exact hst
    · simp only [step, hrep, Reply.isOk] at hfail
      exact absurd hfail (by simp)
  | reset =>
    simp only [step, reset] at hfail ⊢
    split_ifs at hfail ⊢
    · rfl
    · simp [Reply.isOk] at hfail

/-- Witness for C15: a registration attempted in phase 2 is refused. -/
theorem failed_request_keeps_store_witness :
    (step asciiBuiltins { defaults with phase := 2 } (studentSession "")
      (.register (some (.str "alice")) (some (.str "Alice")) (some (.str "pw")))).1 = false ∧
    (step asciiBuiltins { defaults with phase := 2 } (studentSession "")
      (.register (some (.str "alice")) (some (.str "Alice")) (some (.str "pw")))).2
      = { defaults with phase := 2 } :=
  have hfail : (step asciiBuiltins { defaults with phase := 2 } (studentSession "")
      (.register (some (.str "alice")) (some (.str "Alice")) (some (.str "pw")))).1 = false := by
    simp only [step, register, defaults]
    norm_num [Reply.isOk]
  ⟨hfail, failed_request_keeps_store asciiBuiltins _ _ _ hfail⟩

/-- C16: whatever the stored document, reset by the admin answers ok and stores exactly
the default document: phase 1 and no users, sentences or guesses. -/
theorem reset_restores_defaults (data : GameState) (sess : Session)
    (hadmin : sess.isAdmin = true) :
    (reset data sess).1.isOk = true ∧
    (reset data sess).2 = { phase := 1, users := [], sentences := [], guesses := [] } := by
  simp [reset, hadmin, Reply.isOk, defaults]

/-- Witness for C16: reset of a phase-4 document that holds a sentence. -/
theorem reset_restores_defaults_witness :
    (reset { defaults with phase := 4, sentences := [⟨"a", "S"⟩] } adminSession).2
      = { phase := 1, users := [], sentences := [], guesses := [] } :=
  (reset_restores_defaults { defaults with phase := 4, sentences := [⟨"a", "S"⟩] }
    adminSession rfl).2

/-- The guess maps that are refused: a missing field, null, a boolean, a number and a
string. -/
theorem submitGuesses_rejects_primitive (data : GameState) (sess : Session)
    (guessMap : Option Json)
    (h : guessMap = none ∨ guessMap = some .null ∨ (∃ b, guessMap = some (.bool b)) ∨
      (∃ q, guessMap = some (.num q)) ∨ (∃ t, guessMap = some (.str t))) :
    (submitGuesses data sess guessMap).1.isOk = false ∧
    (submitGuesses data sess guessMap).2 = data := by
  have hfail : (submitGuesses data sess guessMap).1.isOk = false := by
    unfold submitGuesses
    split
    · rfl
    · split_ifs
      · rfl
      · rcases h with h | h | ⟨b, h⟩ | ⟨q, h⟩ | ⟨t, h⟩ <;> subst h <;> rfl
  exact ⟨hfail, submitGuesses_failed data sess guessMap hfail⟩

/-- C11: in phase 3 the array `["S"]` passes the guard
`!guessMap || typeof guessMap !== 'object'`; submit-guesses answers ok and stores the array
as the guess map of the student, so the stored guesses change. -/
theorem submitGuesses_accepts_array :
    (submitGuesses { defaults with phase := 3 } (studentSession "a")
        (some (.arr [.str "S"]))).1.isOk = true ∧
    (submitGuesses { defaults with phase := 3 } (studentSession "a")
        (some (.arr [.str "S"]))).2.guesses = [⟨"a", .arr [.str "S"]⟩] ∧
    (submitGuesses { defaults with phase := 3 } (studentSession "a")
        (some (.arr [.str "S"]))).2.guesses ≠ ({ defaults with phase := 3 } : GameState).guesses := by
  have hst : submitGuesses { defaults with phase := 3 } (studentSession "a")
      (some (.arr [.str "S"])) =
      (.ok (), { defaults with phase := 3, guesses := [⟨"a", .arr [.str "S"]⟩] }) := by
    simp [submitGuesses, loggedIn, studentSession, defaults, findIndex]
  rw [hst]
  exact ⟨rfl, rfl, by simp [defaults]⟩

/-! ## Registration -/

theorem register_closed (env : Builtins) (data : GameState)
    (username displayName password : Option Json) (h : data.phase ≠ 1) :
    register env data username displayName password =
      (.error 400 "Registration is closed", data) := by
  simp [register, h]

theorem register_taken (env : Builtins) (data : GameState) (un dn : String) (pw : Json)
    (hp : data.phase = 1) (hun : un ≠ "") (hdn : dn ≠ "") (hpw : truthy (some pw) = true)
    (h : ∃ x ∈ data.users, x.username = env.toLowerCase (trim un)) :
    register env data (some (.str un)) (some (.str dn)) (some pw) =
      (.error 400 "Username already taken", data) := by
  have hfound : (data.users.find? (fun u => u.username == env.toLowerCase (trim un))).isSome
      = true := by
    rw [List.find?_isSome]
    obtain ⟨x, hx, hxe⟩ := h
    exact ⟨x, hx, by simp [hxe]⟩
  have hnp : ¬ (data.phase ≠ 1) := not_not.mpr hp
  have hcond : (!truthy (some (.str un)) || !truthy (some (.str dn)) || !truthy (some pw))
      = false := by
    have h1 : truthy (some (.str un)) = true := by simp [truthy, hun]
    have h2 : truthy (some (.str dn)) = true := by simp [truthy, hdn]
    rw [h1, h2, hpw]; rfl
  unfold register
  rw [if_neg hnp, hcond]
  simp [hfound]

theorem register_ok (env : Builtins) (data : GameState) (un dn : String) (pw : Json)
    (hp : data.phase = 1) (hun : un ≠ "") (hdn : dn ≠ "") (hpw : truthy (some pw) = true)
    (h : ∀ x ∈ data.users, x.username ≠ env.toLowerCase (trim un)) :
    register env data (some (.str un)) (some (.str dn)) (some pw) =
      (.ok (), { data with users := data.users ++
        [{ username := env.toLowerCase (trim un), displayName := trim dn, password := pw }] }) := by
  have hfound : (data.users.find? (fun u => u.username == env.toLowerCase (trim un))).isSome
      = false := by
    rw [Bool.eq_false_iff]
    intro hs
    rw [List.find?_isSome] at hs
    obtain ⟨x, hx, hxe⟩ := hs
    exact h x hx (by simpa using hxe)
  have hnp : ¬ (data.phase ≠ 1) := not_not.mpr hp
  have hcond : (!truthy (some (.str un)) || !truthy (some (.str dn)) || !truthy (some pw))
      = false := by
    have h1 : truthy (some (.str un)) = true := by simp [truthy, hun]
    have h2 : truthy (some (.str dn)) = true := by simp [truthy, hdn]
    rw [h1, h2, hpw]; rfl
  unfold register
  rw [if_neg hnp, hcond]
  simp [hfound]

/-- C14: for a registration request with a non-empty username and displayName and a truthy
password: outside phase 1 it fails; in phase 1 it fails when the normalized username
`toLowerCase(trim(username))` is the username of a stored user; otherwise it succeeds and
appends exactly one user with the normalized username, the trimmed displayName and the
given password. After such a success, a registration whose username normalizes to the same
string fails. Phase, sentences and guesses are unchanged in every case. -/
theorem register_spec (env : Builtins) (data : GameState) (un dn : String) (pw : Json)
    (hun : un ≠ "") (hdn : dn ≠ "") (hpw : truthy (some pw) = true) :
    (data.phase ≠ 1 →
      (register env data (some (.str un)) (some (.str dn)) (some pw)).1.isOk = false ∧
      (register env data (some (.str un)) (some (.str dn)) (some pw)).2.users = data.users) ∧
    (data.phase = 1 → (∃ x ∈ data.users, x.username = env.toLowerCase (trim un)) →
      (register env data (some (.str un)) (some (.str dn)) (some pw)).1.isOk = false ∧
      (register env data (some (.str un)) (some (.str dn)) (some pw)).2.users = data.users) ∧
    (data.phase = 1 → (∀ x ∈ data.users, x.username ≠ env.toLowerCase (trim un)) →
      (register env data (some (.str un)) (some (.str dn)) (some pw)).1.isOk = true ∧
      (register env data (some (.str un)) (some (.str dn)) (some pw)).2.users =
        data.users ++ [{ username := env.toLowerCase (trim un), displayName := trim dn,
                         password := pw }] ∧
      ∀ (un2 dn2 : String) (pw2 : Json), un2 ≠ "" → dn2 ≠ "" → truthy (some pw2) = true →
        env.toLowerCase (trim un2) = env.toLowerCase (trim un) →
        (register env (register env data (some (.str un)) (some (.str dn)) (some pw)).2
          (some (.str un2)) (some (.str dn2)) (some pw2)).1.isOk = false ∧
        (register env (register env data (some (.str un)) (some (.str dn)) (some pw)).2
          (some (.str un2)) (some (.str dn2)) (some pw2)).2
          = (register env data (some (.str un)) (some (.str dn)) (some pw)).2) ∧
    (register env data (some (.str un)) (some (.str dn)) (some pw)).2.phase = data.phase ∧
    (register env data (some (.str un)) (some (.str dn)) (some pw)).2.sentences
      = data.sentences ∧
    (register env data (some (.str un)) (some (.str dn)) (some pw)).2.guesses = data.guesses := by
  refine ⟨?_, ?_, ?_, register_frame env data _ _ _⟩
  · intro hp
    rw [register_closed env data _ _ _ hp]
    exact ⟨rfl, rfl⟩
  · intro hp htaken
    rw [register_taken env data un dn pw hp hun hdn hpw htaken]
    exact ⟨rfl, rfl⟩
  · intro hp hfree
    rw [register_ok env data un dn pw hp hun hdn hpw hfree]
    refine ⟨rfl, rfl, ?_⟩
    intro un2 dn2 pw2 hun2 hdn2 hpw2 hsame
    dsimp only
    have h2 := register_taken env
      { data with users := data.users ++
          [{ username := env.toLowerCase (trim un), displayName := trim dn, password := pw }] }
      un2 dn2 pw2 hp hun2 hdn2 hpw2
      ⟨_, List.mem_append_right _ (List.mem_singleton_self _), hsame.symm⟩
    rw [h2]
    exact ⟨rfl, rfl⟩

/-- Witness for C14: `Alice` registers in the default document, then ` alice ` is refused. -/
theorem register_spec_witness :
    (register asciiBuiltins defaults (some (.str "Alice")) (some (.str "Alice A."))
      (some (.str "pw"))).1.isOk = true ∧
    (register asciiBuiltins (register asciiBuiltins defaults (some (.str "Alice"))
        (some (.str "Alice A.")) (some (.str "pw"))).2
      (some (.str " alice ")) (some (.str "Other")) (some (.str "pw2"))).1.isOk = false :=
  have h := (register_spec asciiBuiltins defaults "Alice" "Alice A." (.str "pw")
    (by decide) (by decide) (by decide)).2.2.1 rfl (by simp [defaults])
  ⟨h.1, (h.2.2 " alice " "Other" (.str "pw2") (by decide) (by decide) (by decide)
    (by decide)).1⟩

/-! ## Sessions and the foreign keys of the document -/

/-- C17: after `alice` registers, the admin resets the game and opens phase 2, and the
browser of `alice` (whose session reset does not touch) submits a sentence, the stored
document holds a sentence entry of `alice` while the users list is empty: the entry's
username is the username of no stored user. -/
theorem stale_session_breaks_foreign_key :
    Served asciiBuiltins staleSessionWorld ∧
    staleSessionWorld.data.users = [] ∧
    staleSessionWorld.data.sentences = [⟨"alice", "hello"⟩] ∧
    ∃ s ∈ staleSessionWorld.data.sentences,
      ∀ u ∈ staleSessionWorld.data.users, u.username ≠ s.username := by
  have hlow : asciiBuiltins.toLowerCase (trim "alice") = "alice" := by decide
  have hreg : sessionAfter asciiBuiltins defaults { username := none, isAdmin := false }
      (.register (some (.str "alice")) (some (.str "Alice")) (some (.str "pw")))
      = { username := some "alice", isAdmin := false } := by
    have hok := register_ok asciiBuiltins defaults "alice" "Alice" (.str "pw") rfl
      (by decide) (by decide) (by decide) (by simp [defaults])
    simp only [sessionAfter, hok, Reply.isOk, if_true, hlow]
  have hsess : ∀ (d : GameState) (sess : Session),
      sessionAfter asciiBuiltins d sess .reset = sess := fun _ _ => rfl
  have hreset : ∀ d : GameState, (step asciiBuiltins d { username := none, isAdmin := true }
      .reset).2 = defaults := by
    intro d; simp [step, reset]
  have hphase : (step asciiBuiltins defaults { username := none, isAdmin := true }
      (.setPhase (some (.num 2)) zeroDraws)).2 = { defaults with phase := 2 } := by
    simp only [step, setPhase, defaults]
    norm_num
  have hsub := submitSentence_ok { defaults with phase := 2 }
    { username := some "alice", isAdmin := false } "alice" "hello" rfl rfl (by decide)
  have hup : upsert (ownsSentence "alice") ⟨"alice", trim "hello"⟩ [] = [⟨"alice", "hello"⟩] := by
    decide
  have hdata : staleSessionWorld.data =
      { phase := 2, users := [], sentences := [⟨"alice", "hello"⟩], guesses := [] } := by
    simp only [staleSessionWorld, serve]
    simp only [ADMIN_PASSWORD, if_true, World.initial, if_neg (show ¬ (1 : Nat) = 0 by decide),
      if_neg (show ¬ (0 : Nat) = 1 by decide), hreset, hsess, hreg, hphase]
    simp only [step, hsub]
    simp only [defaults, hup]
  refine ⟨?_, by rw [hdata], by rw [hdata], ?_⟩
  · exact Served.serve (Served.serve (Served.serve (Served.serve
      (Served.serve Served.init _ _) _ _) _ _) _ _) _ _
  · rw [hdata]
    exact ⟨⟨"alice", "hello"⟩, List.mem_singleton_self _, fun u hu => absurd hu (List.not_mem_nil u)⟩

end SentenceGame
